import Mathlib

/-!
Shallow embedding of the nitecache in-memory cache library (Go) and proofs
about it.  Each definition is translated from a specific Go source location,
noted in its doc comment.  Machine integers (Go `int`, `int64`) are modelled
as `Int`/`Nat`; `time.Time` is modelled as an optional instant (`none` models
the zero `time.Time`), and `time.Duration` as `Int`.  Go functions that can
dereference a nil pointer or index out of range are modelled in `Option`,
where `none` models a runtime panic; no executed path in the theorems below
relies on that case.  Sequential (single-goroutine) semantics are modelled:
every mutex acquisition succeeds immediately and `singleflight.Do` with no
concurrent caller simply runs its function.
-/

namespace Nitecache

/-! ## Association-list primitives modelling Go maps (unique keys). -/

/-- Lookup in an association list; models reading a Go map. -/
def alookup {K V : Type} [DecidableEq K] : List (K × V) → K → Option V
  | [], _ => none
  | (k, v) :: rest, key => if k = key then some v else alookup rest key

/-- Insert-or-replace in an association list; models `m[k] = v` on a Go map. -/
def aupsert {K V : Type} [DecidableEq K] : List (K × V) → K → V → List (K × V)
  | [], key, value => [(key, value)]
  | (k, v) :: rest, key, value =>
    if k = key then (key, value) :: rest else (k, v) :: aupsert rest key value

/-- Remove a key from an association list; models `delete(m, k)` on a Go map. -/
def aerase {K V : Type} [DecidableEq K] : List (K × V) → K → List (K × V)
  | [], _ => []
  | (k, v) :: rest, key =>
    if k = key then rest else (k, v) :: aerase rest key

/-! ## Items (src/inmem/store.go) -/

/-- Item models `inmem.Item[V]` (src/inmem/store.go lines 20-23):
`{Expire time.Time, Value V}`.  `expire = none` models the zero `time.Time`
(no TTL); `expire = some e` models the instant `e`. -/
structure Item (V : Type) where
  expire : Option Int
  value : V
  deriving DecidableEq, Repr

/-- Item.zero models the zero value `Item[V]{}` returned by Go on a miss. -/
def Item.zero (V : Type) [Inhabited V] : Item V := ⟨none, default⟩

/-- Item.isExpired models `(i Item[V]) isExpired()` (src/inmem/store.go
lines 161-163): `!i.Expire.IsZero() && i.Expire.Before(time.Now())`, with the
current instant passed explicitly. -/
def Item.isExpired {V : Type} (i : Item V) (now : Int) : Bool :=
  match i.expire with
  | none => false
  | some e => e < now

/-- mkItem models `Store.NewItem` (src/inmem/store.go lines 131-141): a zero
ttl leaves the expiry at the zero time, otherwise expiry is `now + ttl`. -/
def mkItem {V : Type} (value : V) (ttl : Int) (now : Int) : Item V :=
  { expire := if ttl = 0 then none else some (now + ttl), value := value }

/-! ## The Storage interface (src/inmem/store.go lines 26-30)

`Storage[K,V]` is a Go interface with `Put(key, Item[V], ...Opt) bool`,
`Evict(key) bool` and `Get(key, ...Opt) (Item[V], bool)`.  It is modelled as a
record of state-passing functions over a state type `σ`.  The `Bool` argument
is the resolved `skipInc` option.  Results live in `Option`: `none` models a
Go runtime panic inside the storage. -/

structure StorageImpl (K V σ : Type) where
  get : σ → K → Bool → Option (σ × Item V × Bool)
  put : σ → K → Item V → Bool → Option (σ × Bool)
  evict : σ → K → Option (σ × Bool)

/-! ## Plain-map storage (src/inmem/cache.go) -/

/-- MapState models `inmem.Cache[K, Item[V]]`: a plain Go map. -/
def MapState (K V : Type) : Type := List (K × Item V)

/-- mapGet models `(c *Cache[T,K]) Get` (src/inmem/cache.go lines 18-24):
plain map lookup, options ignored. -/
def mapGet {K V : Type} [DecidableEq K] [Inhabited V] (s : MapState K V) (key : K)
    (_skipInc : Bool) : Option (MapState K V × Item V × Bool) :=
  match alookup s key with
  | some v => some (s, v, true)
  | none => some (s, Item.zero V, false)

/-- mapPut models `(c *Cache[T,K]) Put` (src/inmem/cache.go lines 26-34). -/
def mapPut {K V : Type} [DecidableEq K] (s : MapState K V) (key : K) (value : Item V)
    (_skipInc : Bool) : Option (MapState K V × Bool) :=
  some (aupsert s key value, (alookup s key).isSome)

/-- mapEvict models `(c *Cache[T,K]) Evict` (src/inmem/cache.go lines 36-45). -/
def mapEvict {K V : Type} [DecidableEq K] (s : MapState K V) (key : K) :
    Option (MapState K V × Bool) :=
  match alookup s key with
  | some _ => some (aerase s key, true)
  | none => some (s, false)

/-- mapStorage packages the plain-map storage (the default storage installed
by `NewStore` when no `WithStorage` option is given, src/inmem/store.go
lines 53-55). -/
def mapStorage (K V : Type) [DecidableEq K] [Inhabited V] :
    StorageImpl K V (MapState K V) :=
  { get := mapGet, put := mapPut, evict := mapEvict }

/-! ## LRU storage (src/codec.go lines 88-217, the `inmem` LRU revision)

Go's `container/list` elements are heap nodes with identity; `Remove` and
`MoveToBack` are no-ops when the element is not currently a member of the
list operated on.  The model gives every element a unique id: `arena` keeps
each allocated node's `(key, value)` (Go never frees them), `queue` is the
sequence of ids currently linked in `evictionQueue` (front first), and
`hashMap` maps keys to element ids. -/

structure LRUState (K V : Type) where
  threshold : Int
  sizeVal : Int
  arena : List (Nat × K × Item V)
  queue : List Nat
  hashMap : List (K × Nat)
  nextId : Nat
  deriving Repr

/-- newLRU models `NewLRU[T,K](threshold)` (src/codec.go lines 106-113). -/
def newLRU (K V : Type) (threshold : Int) : LRUState K V :=
  { threshold := threshold, sizeVal := 0, arena := [], queue := [], hashMap := [],
    nextId := 0 }

/-- lruMoveToBack models `l.evictionQueue.MoveToBack(ele)`: a no-op when the
element is no longer linked in the queue (Go checks `e.list != l`). -/
def lruMoveToBack (q : List Nat) (eid : Nat) : List Nat :=
  if eid ∈ q then q.erase eid ++ [eid] else q

/-- lruGet models `(l *LRU[T,K]) Get` (src/codec.go lines 115-147): value is
read first; without skipInc the element is then moved to the back (the Go
code re-checks presence across the lock promotion, which always holds in this
sequential model). -/
def lruGet {K V : Type} [DecidableEq K] [Inhabited V] (s : LRUState K V) (key : K)
    (skipInc : Bool) : Option (LRUState K V × Item V × Bool) :=
  match alookup s.hashMap key with
  | none => some (s, Item.zero V, false)
  | some eid =>
    match alookup s.arena eid with
    | none => none
    | some (_, v) =>
      if skipInc then some (s, v, true)
      else some ({ s with queue := lruMoveToBack s.queue eid }, v, true)

/-- lruApplyGo models the loop of `(l *LRU[T,K]) unsafeApplyPolicy`
(src/codec.go lines 208-217): while `size > threshold`, unlink the front
element and delete its key; a nil front (empty queue) is a Go panic, modelled
as `none`.  Each iteration decrements `size` by exactly one, so fuel
`(size - threshold).toNat` is exact. -/
def lruApplyGo {K V : Type} [DecidableEq K] :
    Nat → LRUState K V → Option (LRUState K V)
  | 0, s => some s
  | fuel + 1, s =>
    if s.sizeVal > s.threshold then
      match s.queue with
      | [] => none
      | eid :: rest =>
        match alookup s.arena eid with
        | none => none
        | some (nk, _) =>
          lruApplyGo fuel
            { s with sizeVal := s.sizeVal - 1, queue := rest,
                     hashMap := aerase s.hashMap nk }
    else some s

/-- lruApplyPolicy wraps `lruApplyGo` with its exact fuel. -/
def lruApplyPolicy {K V : Type} [DecidableEq K] (s : LRUState K V) :
    Option (LRUState K V) :=
  lruApplyGo (s.sizeVal - s.threshold).toNat s

/-- lruPut models `(l *LRU[T,K]) Put` (src/codec.go lines 149-171): update in
place and move to back (unless skipInc) for an existing key, else push a new
back node; then apply the eviction policy; returns whether the key existed. -/
def lruPut {K V : Type} [DecidableEq K] (s : LRUState K V) (key : K) (value : Item V)
    (skipInc : Bool) : Option (LRUState K V × Bool) :=
  match alookup s.hashMap key with
  | some eid =>
    let s₁ := { s with arena := aupsert s.arena eid (key, value) }
    let s₂ := if skipInc then s₁ else { s₁ with queue := lruMoveToBack s₁.queue eid }
    match lruApplyPolicy s₂ with
    | none => none
    | some s₃ => some (s₃, true)
  | none =>
    let eid := s.nextId
    let s₁ := { s with sizeVal := s.sizeVal + 1,
                       arena := s.arena ++ [(eid, key, value)],
                       queue := s.queue ++ [eid],
                       hashMap := aupsert s.hashMap key eid,
                       nextId := s.nextId + 1 }
    match lruApplyPolicy s₁ with
    | none => none
    | some s₂ => some (s₂, false)

/-- lruEvict models `(l *LRU[T,K]) Evict` (src/codec.go lines 173-183): it
decrements `size` and unlinks the element from the eviction queue, but the
Go code never executes `delete(l.hashMap, key)`, so the key stays mapped. -/
def lruEvict {K V : Type} [DecidableEq K] (s : LRUState K V) (key : K) :
    Option (LRUState K V × Bool) :=
  match alookup s.hashMap key with
  | some eid =>
    some ({ s with sizeVal := s.sizeVal - 1, queue := s.queue.erase eid }, true)
  | none => some (s, false)

/-- lruStorage packages the LRU storage as a `StorageImpl`. -/
def lruStorage (K V : Type) [DecidableEq K] [Inhabited V] :
    StorageImpl K V (LRUState K V) :=
  { get := lruGet, put := lruPut, evict := lruEvict }

/-! ## LFU storage (src/inmem/lfu.go)

Same arena discipline: `freqList` is the list of frequency buckets (front
first); each bucket has an id, its `count`, and its `keys` list of
`(element id, key)` pairs (front first).  `hashMap` records per key the
stored item and the entry's current `(parent bucket id, nodeKey element id)`
position (`none` models the nil pointers of a freshly inserted entry). -/

structure LFUBucket (K : Type) where
  bid : Nat
  count : Int
  keys : List (Nat × K)
  deriving Repr

structure LFUEntry (V : Type) where
  value : Item V
  pos : Option (Nat × Nat)
  deriving Repr

structure LFUState (K V : Type) where
  threshold : Int
  sizeVal : Int
  freqList : List (LFUBucket K)
  hashMap : List (K × LFUEntry V)
  nextId : Nat
  deriving Repr

/-- newLFU models `NewLFU[T,K](threshold)` (src/inmem/lfu.go lines 34-41). -/
def newLFU (K V : Type) (threshold : Int) : LFUState K V :=
  { threshold := threshold, sizeVal := 0, freqList := [], hashMap := [], nextId := 0 }

/-- eraseElem removes the element with the given id from a bucket's keys list
(no-op when absent, exactly like `list.Remove` on a foreign element). -/
def eraseElem {K : Type} : List (Nat × K) → Nat → List (Nat × K)
  | [], _ => []
  | (i, k) :: rest, eid => if i = eid then rest else (i, k) :: eraseElem rest eid

/-- lfuRemoveFreqEntry models `(l *LFU[T,K]) unsafeRemoveFreqEntry`
(src/inmem/lfu.go lines 176-184): remove the element from the given bucket's
keys list (a no-op when that element does not belong to this bucket, as in
Go), then drop the bucket from the frequency list if its keys list ended up
empty. -/
def lfuRemoveFreqEntry {K V : Type} (s : LFUState K V) (bid eid : Nat) :
    LFUState K V :=
  match s.freqList.find? (fun b => b.bid == bid) with
  | none => s
  | some b =>
    let keys' := eraseElem b.keys eid
    if keys'.isEmpty then
      { s with freqList := s.freqList.filter (fun b' => b'.bid ≠ bid) }
    else
      { s with freqList := s.freqList.map (fun b' =>
          if b'.bid = bid then { b' with keys := keys' } else b') }

/-- lfuNewBucketFront models the first branch of `unsafeUpdateCount`
(src/inmem/lfu.go lines 145-151): a fresh one-element bucket is pushed to the
FRONT of the whole frequency list (`l.freqList.PushFront`), regardless of
where the entry was promoted from. -/
def lfuNewBucketFront {K V : Type} (s : LFUState K V) (key : K) (nextCount : Int) :
    LFUState K V × Nat × Nat :=
  let eid := s.nextId
  let bid := s.nextId + 1
  ({ s with freqList := ⟨bid, nextCount, [(eid, key)]⟩ :: s.freqList,
            nextId := s.nextId + 2 }, bid, eid)

/-- lfuUpdateCount models `(l *LFU[T,K]) unsafeUpdateCount`
(src/inmem/lfu.go lines 134-160).  For a new entry the candidate bucket is
the list front with `nextCount = 0`; for an access it is the successor of the
entry's parent bucket with `nextCount = parent.count + 1`.  If the candidate
is missing or has a different count, a fresh bucket is pushed to the front of
the frequency list; otherwise the entry is pushed to the candidate's keys
front.  The trailing `unsafeRemoveFreqEntry(prevNode, entry.nodeKey)` is
called with the REASSIGNED `entry.nodeKey` (Go line 158), i.e. with the new
element id, exactly as in the source.  The entry is re-read from `hashMap`
(the Go code mutates it through a pointer; for entries still present the two
coincide, and no executed path below reaches the dangling-pointer case,
modelled `none`). -/
def lfuUpdateCount {K V : Type} [DecidableEq K] (s : LFUState K V) (key : K)
    (isNew : Bool) : Option (LFUState K V) :=
  match alookup s.hashMap key with
  | none => none
  | some entry =>
    let info : Option (Option (LFUBucket K) × Int × Option (Nat × Nat)) :=
      if isNew then some (s.freqList.head?, 0, none)
      else
        match entry.pos with
        | none => none
        | some (pbid, peid) =>
          match s.freqList.findIdx? (fun b => b.bid == pbid) with
          | none => none
          | some idx =>
            match s.freqList[idx]? with
            | none => none
            | some prevBucket =>
              some (s.freqList[idx + 1]?, prevBucket.count + 1, some (pbid, peid))
    match info with
    | none => none
    | some (currentNode, nextCount, prev) =>
      let step : LFUState K V × Nat × Nat :=
        match currentNode with
        | some b =>
          if b.count = nextCount then
            let eid := s.nextId
            let fl := s.freqList.map (fun b' =>
              if b'.bid = b.bid then { b' with keys := (eid, key) :: b'.keys } else b')
            ({ s with freqList := fl, nextId := s.nextId + 1 }, b.bid, eid)
          else lfuNewBucketFront s key nextCount
        | none => lfuNewBucketFront s key nextCount
      match step with
      | (s₁, newBid, newEid) =>
        let s₂ := { s₁ with hashMap := aupsert s₁.hashMap key { entry with pos := some (newBid, newEid) } }
        match prev with
        | none => some s₂
        | some (pbid, _) => some (lfuRemoveFreqEntry s₂ pbid newEid)

/-- lfuApplyGo models the loop of `(l *LFU[T,K]) unsafeApplyPolicy`
(src/inmem/lfu.go lines 162-174): while `size > threshold`, take the
front-most bucket, evict the BACK element of its keys list, delete that key
from the hash map and remove the element (dropping the bucket if emptied).
A nil front bucket or back element is a Go panic, modelled `none`.  Each
iteration decrements `size` by exactly one, so the fuel is exact. -/
def lfuApplyGo {K V : Type} [DecidableEq K] :
    Nat → LFUState K V → Option (LFUState K V)
  | 0, s => some s
  | fuel + 1, s =>
    if s.sizeVal > s.threshold then
      match s.freqList.head? with
      | none => none
      | some b =>
        match b.keys.getLast? with
        | none => none
        | some (eid, k) =>
          lfuApplyGo fuel
            (lfuRemoveFreqEntry
              { s with sizeVal := s.sizeVal - 1, hashMap := aerase s.hashMap k }
              b.bid eid)
    else some s

/-- lfuApplyPolicy wraps `lfuApplyGo` with its exact fuel. -/
def lfuApplyPolicy {K V : Type} [DecidableEq K] (s : LFUState K V) :
    Option (LFUState K V) :=
  lfuApplyGo (s.sizeVal - s.threshold).toNat s

/-- lfuGet models `(l *LFU[T,K]) Get` (src/inmem/lfu.go lines 43-75): the
value is captured first; without skipInc the access count is then updated
(the presence re-check across the lock promotion always holds here). -/
def lfuGet {K V : Type} [DecidableEq K] [Inhabited V] (s : LFUState K V) (key : K)
    (skipInc : Bool) : Option (LFUState K V × Item V × Bool) :=
  match alookup s.hashMap key with
  | none => some (s, Item.zero V, false)
  | some entry =>
    if skipInc then some (s, entry.value, true)
    else
      match lfuUpdateCount s key false with
      | none => none
      | some s' => some (s', entry.value, true)

/-- lfuPut models `(l *LFU[T,K]) Put` (src/inmem/lfu.go lines 77-98): upsert
the entry (a new entry has nil position and bumps `size`), apply the eviction
policy, then update the access count when the key is new or skipInc is
unset. -/
def lfuPut {K V : Type} [DecidableEq K] (s : LFUState K V) (key : K) (value : Item V)
    (skipInc : Bool) : Option (LFUState K V × Bool) :=
  let upserted : LFUState K V × Bool :=
    match alookup s.hashMap key with
    | some entry =>
      ({ s with hashMap := aupsert s.hashMap key { entry with value := value } }, true)
    | none =>
      ({ s with hashMap := aupsert s.hashMap key { value := value, pos := none },
                sizeVal := s.sizeVal + 1 }, false)
  match upserted with
  | (s₁, ok) =>
    match lfuApplyPolicy s₁ with
    | none => none
    | some s₂ =>
      if !ok || !skipInc then
        match lfuUpdateCount s₂ key (!ok) with
        | none => none
        | some s₃ => some (s₃, ok)
      else some (s₂, ok)

/-- lfuEvict models `(l *LFU[T,K]) Evict` (src/inmem/lfu.go lines 100-110):
delete the key and remove its element from its parent bucket.  Note the Go
code does not decrement `l.size` here; the model keeps that behavior. -/
def lfuEvict {K V : Type} [DecidableEq K] (s : LFUState K V) (key : K) :
    Option (LFUState K V × Bool) :=
  match alookup s.hashMap key with
  | none => some (s, false)
  | some entry =>
    match entry.pos with
    | none => none
    | some (bid, eid) =>
      some (lfuRemoveFreqEntry { s with hashMap := aerase s.hashMap key } bid eid, true)

/-- lfuStorage packages the LFU storage as a `StorageImpl`. -/
def lfuStorage (K V : Type) [DecidableEq K] [Inhabited V] :
    StorageImpl K V (LFUState K V) :=
  { get := lfuGet, put := lfuPut, evict := lfuEvict }

/-! ## LocalStore (src/inmem/store.go)

`Store[K,V]` composes a `Storage` with an optional `Getter`.  The getter
`func(key) (V, time.Duration, error)` is modelled as
`K → Except String (V × Int)` (user errors as strings); the current instant
is passed explicitly.  Per-key locks are immediate in this sequential model. -/

structure StoreState (K V σ : Type) where
  getter : Option (K → Except String (V × Int))
  internal : σ

/-- storeCacheAside models `Store.unsafeCacheAside` (src/inmem/store.go
lines 144-154): call the getter; on error return the zero item and the error
without touching the storage; otherwise build the item and `Put` it with
`SkipInc(true)`. -/
def storeCacheAside {K V σ : Type} (impl : StorageImpl K V σ) (now : Int)
    (g : K → Except String (V × Int)) (st : σ) (key : K) :
    Option (σ × Except String (Item V)) :=
  match g key with
  | .error e => some (st, .error e)
  | .ok (v, ttl) =>
    let newIt := mkItem v ttl now
    match impl.put st key newIt true with
    | none => none
    | some (st', _) => some (st', .ok newIt)

/-- storeGet models `Store.Get` (src/inmem/store.go lines 60-85): read from
the storage (without skipInc); when a getter is configured and the read
missed or the item is expired, run the cache-aside fill and report
`hit = false`; otherwise return the raw read — note the expired-but-present
item is returned with its raw `hit` when no getter is configured. -/
def storeGet {K V σ : Type} [Inhabited V] (impl : StorageImpl K V σ) (now : Int)
    (s : StoreState K V σ) (key : K) :
    Option (StoreState K V σ × Item V × Bool × Option String) :=
  match impl.get s.internal key false with
  | none => none
  | some (st₁, itm, hit) =>
    match s.getter with
    | some g =>
      if hit = false ∨ itm.isExpired now then
        match storeCacheAside impl now g st₁ key with
        | none => none
        | some (st₂, .error e) =>
          some ({ s with internal := st₂ }, Item.zero V, false, some e)
        | some (st₂, .ok newIt) =>
          some ({ s with internal := st₂ }, newIt, false, none)
      else some ({ s with internal := st₁ }, itm, hit, none)
    | none => some ({ s with internal := st₁ }, itm, hit, none)

/-- storePut models `Store.Put` (src/inmem/store.go lines 87-92): hand the
item to the storage (skipInc not set, hence false). -/
def storePut {K V σ : Type} (impl : StorageImpl K V σ) (s : StoreState K V σ)
    (key : K) (item : Item V) : Option (StoreState K V σ) :=
  match impl.put s.internal key item false with
  | none => none
  | some (st', _) => some { s with internal := st' }

/-- storeEvict models `Store.Evict` (src/inmem/store.go lines 94-99). -/
def storeEvict {K V σ : Type} (impl : StorageImpl K V σ) (s : StoreState K V σ)
    (key : K) : Option (StoreState K V σ) :=
  match impl.evict s.internal key with
  | none => none
  | some (st', _) => some { s with internal := st' }

/-- storeUpdateRest models the tail of `Store.Update` (src/inmem/store.go
lines 120-128) once the old item and the `skipInc` flag are resolved: run the
mutator; on error return it with the store as it stands; otherwise build the
new item and `Put` it with `SkipInc(skipInc)`. -/
def storeUpdateRest {K V σ : Type} (impl : StorageImpl K V σ) (now : Int)
    (s : StoreState K V σ) (key : K) (fn : V → Except String (V × Int))
    (oldItem : Item V) (skipInc : Bool) :
    Option (StoreState K V σ × Except String (Item V)) :=
  match fn oldItem.value with
  | .error e => some (s, .error e)
  | .ok (nv, ttl) =>
    let newItem := mkItem nv ttl now
    match impl.put s.internal key newItem skipInc with
    | none => none
    | some (st', _) => some ({ s with internal := st' }, .ok newItem)

/-- storeUpdate models `Store.Update` (src/inmem/store.go lines 101-129):
read the current item with `SkipInc(true)`; when it is absent and a getter is
configured, run the cache-aside fill under the same lock (errors abort with
the store as it stands) and remember `skipInc = true`; then run the mutator
and store its result. -/
def storeUpdate {K V σ : Type} (impl : StorageImpl K V σ) (now : Int)
    (s : StoreState K V σ) (key : K) (fn : V → Except String (V × Int)) :
    Option (StoreState K V σ × Except String (Item V)) :=
  match impl.get s.internal key true with
  | none => none
  | some (st₁, oldItem, ok) =>
    match s.getter, ok with
    | some g, false =>
      match storeCacheAside impl now g st₁ key with
      | none => none
      | some (st₂, .error e) => some ({ s with internal := st₂ }, .error e)
      | some (st₂, .ok aside) =>
        storeUpdateRest impl now { s with internal := st₂ } key fn aside true
    | some _, true => storeUpdateRest impl now { s with internal := st₁ } key fn oldItem false
    | none, _ => storeUpdateRest impl now { s with internal := st₁ } key fn oldItem false

/-! ## Consistent-hash ring (src/hashring/hashring.go)

Go `int` hash values are modelled as `Int`.  `HashFn` models
`hashring.HashFunc = func(key string) (int, error)`. -/

def HashFn : Type := String → Except String Int

structure RingS where
  hashFn : HashFn
  hashMap : List (Int × String)
  points : List Int
  members : List String
  virtualNodes : Nat

/-- charLtB is Go's string comparison `a < b` on the rune sequence; UTF-8 is
order-preserving, so byte-wise order and codepoint order agree. -/
def charLtB : List Char → List Char → Bool
  | [], [] => false
  | [], _ :: _ => true
  | _ :: _, [] => false
  | a :: as, b :: bs =>
    if a.toNat < b.toNat then true
    else if b.toNat < a.toNat then false
    else charLtB as bs

/-- strLtB models Go's `s1 < s2` on strings. -/
def strLtB (a b : String) : Bool := charLtB a.data b.data

/-- strLe is the non-strict Go string order (the sort order of
`sort.Slice(members, func(i,j) { return members[i] < members[j] })`). -/
def strLe (a b : String) : Prop := strLtB b a = false

instance : DecidableRel strLe := fun _a _b => inferInstanceAs (Decidable (_ = false))

/-- findPoint models the collision loop of `populate` (src/hashring/hashring.go
lines 152-166): hash `pfx + key`; on a taken point grow the dash pfx and
retry.  The Go loop is unbounded, so it takes fuel; `none` models
fuel exhaustion (a run of the Go loop that has not yet terminated). -/
def findPoint (hashFn : HashFn) (hashMap : List (Int × String)) (key : String) :
    Nat → String → Option (Except String Int)
  | 0, _ => none
  | fuel + 1, pfx =>
    match hashFn (pfx ++ key) with
    | .error e => some (.error e)
    | .ok h =>
      if (alookup hashMap h).isSome then findPoint hashFn hashMap key fuel (pfx ++ "-")
      else some (.ok h)

/-- ringSeeds lists the (seed key, owner) pairs in the order the nested loops
of `populate` (lines 148-150) visit them: sorted members outer, `n` from `0`
to `virtualNodes - 1` inner; the seed key is `strconv.Itoa(n) + member`. -/
def ringSeeds (members : List String) (virtualNodes : Nat) : List (String × String) :=
  members.flatMap (fun m => (List.range virtualNodes).map (fun n => (toString n ++ m, m)))

/-- populateGo folds the point-insertion loop of `populate` (lines 148-168)
over the seed list, threading the hash map and the point slice. -/
def populateGo (hashFn : HashFn) (fuel : Nat) :
    List (String × String) → List (Int × String) → List Int →
    Option (Except String (List (Int × String) × List Int))
  | [], hm, pts => some (.ok (hm, pts))
  | (key, owner) :: rest, hm, pts =>
    match findPoint hashFn hm key fuel "" with
    | none => none
    | some (.error e) => some (.error e)
    | some (.ok h) => populateGo hashFn fuel rest (hm ++ [(h, owner)]) (pts ++ [h])

/-- populate models `(r *Ring) populate` (lines 138-171): clear the points,
sort the members ascending, insert one unique point per (member, n) pair
resolving collisions, then sort the point slice ascending (`sort.Ints`). -/
def populate (r : RingS) (fuel : Nat) : Option (Except String RingS) :=
  let sorted := List.insertionSort strLe r.members
  match populateGo r.hashFn fuel (ringSeeds sorted r.virtualNodes) [] [] with
  | none => none
  | some (.error e) => some (.error e)
  | some (.ok (hm, pts)) =>
    some (.ok { r with members := sorted, hashMap := hm,
                       points := List.insertionSort (· ≤ ·) pts })

/-- ringNew models `hashring.New` (lines 28-43): build the ring state and
populate it.  Note `populate` runs for every member count, including a
single-member set. -/
def ringNew (members : List String) (virtualNodes : Nat) (hashFn : HashFn)
    (fuel : Nat) : Option (Except String RingS) :=
  populate { hashFn := hashFn, hashMap := [], points := [], members := members,
             virtualNodes := virtualNodes } fuel

/-- sliceEquals models `hashring.SliceEquals` (lines 182-199): equal lengths,
then set-insert every element of the first list, remove elements of the
second one by one (failing on an absent element), and require emptiness. -/
def sliceEquals (slice1 slice2 : List String) : Bool :=
  if slice1.length ≠ slice2.length then false
  else
    let s := slice1.foldl (fun acc m => if m ∈ acc then acc else m :: acc) ([] : List String)
    match slice2.foldlM (fun acc m => if m ∈ acc then some (acc.erase m) else none) s with
    | none => false
    | some rest => rest.isEmpty

/-- setMembers models `(r *Ring) SetMembers` (lines 78-109): a single-member
set keeps the new members and clears the points and hash map; an
order-independent equal set is a no-op; otherwise a fresh ring (same hash
function and virtual-node count) is populated and swapped in. -/
def setMembers (r : RingS) (newMembers : List String) (fuel : Nat) :
    Option (Except String RingS) :=
  if newMembers.length = 1 then
    some (.ok { r with members := newMembers, points := [], hashMap := [] })
  else if sliceEquals newMembers r.members then some (.ok r)
  else populate { r with members := newMembers, points := [], hashMap := [] } fuel

/-- searchLoop models the loop of Go's `sort.Search` (binary search for the
least index in `[i, j)` satisfying `f`, returning `j` when none does).  The
fuel argument only makes the recursion structural; every iteration shrinks
`j - i`, so fuel `n ≥ j - i` never runs out. -/
def searchLoop (f : Nat → Bool) : Nat → Nat → Nat → Nat
  | 0, i, _ => i
  | fuel + 1, i, j =>
    if i < j then
      let m := (i + j) / 2
      if f m then searchLoop f fuel i m else searchLoop f fuel (m + 1) j
    else i

/-- sortSearch models `sort.Search(n, f)`. -/
def sortSearch (n : Nat) (f : Nat → Bool) : Nat := searchLoop f n 0 n

/-- getOwner models `(r *Ring) GetOwner` (lines 53-76): a single-member ring
answers with `members[0]` without consulting the hash function or the point
table; otherwise hash the key, binary-search the point slice for the first
point `≥` the hash, wrap to index 0 past the end, and answer with that
point's member (a Go map read, defaulting to the empty string).  Indexing an
empty point slice is a Go panic, modelled `none`. -/
def getOwner (r : RingS) (key : String) : Option (Except String String) :=
  if r.members.length = 1 then some (.ok (r.members.headD ""))
  else
    match r.hashFn key with
    | .error e => some (.error e)
    | .ok sum =>
      let i := sortSearch r.points.length (fun j => sum ≤ r.points.getD j 0)
      let i' := if i = r.points.length then 0 else i
      match r.points[i']? with
      | none => none
      | some p =>
        match alookup r.hashMap p with
        | some m => some (.ok m)
        | none => some (.ok "")

/-! ## Hash functions (src/hashring/hashring.go lines 45-51, src/cache.go
lines 76-89)

Byte strings are `List Nat` (each entry < 256).  64-bit and 32-bit machine
arithmetic is `Nat` with explicit `% 2 ^ 64` / `% 2 ^ 32`. -/

/-- utf8EncodeChar encodes one character as UTF-8 bytes, as Go's `[]byte(s)`
conversion does per rune. -/
def utf8EncodeChar (c : Char) : List Nat :=
  let n := c.toNat
  if n < 0x80 then [n]
  else if n < 0x800 then [0xC0 ||| (n >>> 6), 0x80 ||| (n &&& 0x3F)]
  else if n < 0x10000 then
    [0xE0 ||| (n >>> 12), 0x80 ||| ((n >>> 6) &&& 0x3F), 0x80 ||| (n &&& 0x3F)]
  else
    [0xF0 ||| (n >>> 18), 0x80 ||| ((n >>> 12) &&& 0x3F),
     0x80 ||| ((n >>> 6) &&& 0x3F), 0x80 ||| (n &&& 0x3F)]

/-- strBytes models Go's `[]byte(key)`: the UTF-8 bytes of the string. -/
def strBytes (s : String) : List Nat := s.data.flatMap utf8EncodeChar

def fnvOffset64 : Nat := 14695981039346656037

def fnvPrime64 : Nat := 1099511628211

/-- fnv1Step is one byte of Go's `fnv.New64()` (FNV-1): multiply, then xor. -/
def fnv1Step (h b : Nat) : Nat := ((h * fnvPrime64) % 2 ^ 64) ^^^ b

/-- fnv1_64 is the 64-bit FNV-1 hash, the algorithm of Go's `fnv.New64()`. -/
def fnv1_64 (bytes : List Nat) : Nat := bytes.foldl fnv1Step fnvOffset64

/-- fnv1aStep is one byte of Go's `fnv.New64a()` (FNV-1a): xor, then multiply. -/
def fnv1aStep (h b : Nat) : Nat := ((h ^^^ b) * fnvPrime64) % 2 ^ 64

/-- fnv1a64 is the 64-bit FNV-1a hash (the algorithm the spec names). -/
def fnv1a64 (bytes : List Nat) : Nat := bytes.foldl fnv1aStep fnvOffset64

/-- toInt64 models Go's `int(u)` conversion of a `uint64`: two's-complement
reinterpretation. -/
def toInt64 (n : Nat) : Int :=
  let m : Nat := n % 2 ^ 64
  if m < 2 ^ 63 then (m : Int) else (m : Int) - 2 ^ 64

/-- defaultHashFunc models `hashring.DefaultHashFunc` (src/hashring/hashring.go
lines 45-51): `fnv.New64()` — 64-bit FNV-1, not FNV-1a — applied directly to
the key's bytes and converted to a Go `int`.  The `hash.Write` error branch
is dead: the fnv writer never fails. -/
def defaultHashFunc : HashFn := fun key => .ok (toInt64 (fnv1_64 (strBytes key)))

/-! ### MD5 (RFC 1321), needed only to evaluate the spec's claimed
"FNV-1a of an MD5-bridged seed" default hash for comparison. -/

def md5K : List Nat :=
  [0xd76aa478, 0xe8c7b756, 0x242070db, 0xc1bdceee,
   0xf57c0faf, 0x4787c62a, 0xa8304613, 0xfd469501,
   0x698098d8, 0x8b44f7af, 0xffff5bb1, 0x895cd7be,
   0x6b901122, 0xfd987193, 0xa679438e, 0x49b40821,
   0xf61e2562, 0xc040b340, 0x265e5a51, 0xe9b6c7aa,
   0xd62f105d, 0x02441453, 0xd8a1e681, 0xe7d3fbc8,
   0x21e1cde6, 0xc33707d6, 0xf4d50d87, 0x455a14ed,
   0xa9e3e905, 0xfcefa3f8, 0x676f02d9, 0x8d2a4c8a,
   0xfffa3942, 0x8771f681, 0x6d9d6122, 0xfde5380c,
   0xa4beea44, 0x4bdecfa9, 0xf6bb4b60, 0xbebfbc70,
   0x289b7ec6, 0xeaa127fa, 0xd4ef3085, 0x04881d05,
   0xd9d4d039, 0xe6db99e5, 0x1fa27cf8, 0xc4ac5665,
   0xf4292244, 0x432aff97, 0xab9423a7, 0xfc93a039,
   0x655b59c3, 0x8f0ccc92, 0xffeff47d, 0x85845dd1,
   0x6fa87e4f, 0xfe2ce6e0, 0xa3014314, 0x4e0811a1,
   0xf7537e82, 0xbd3af235, 0x2ad7d2bb, 0xeb86d391]

def md5S : List Nat :=
  [7, 12, 17, 22, 7, 12, 17, 22, 7, 12, 17, 22, 7, 12, 17, 22,
   5, 9, 14, 20, 5, 9, 14, 20, 5, 9, 14, 20, 5, 9, 14, 20,
   4, 11, 16, 23, 4, 11, 16, 23, 4, 11, 16, 23, 4, 11, 16, 23,
   6, 10, 15, 21, 6, 10, 15, 21, 6, 10, 15, 21, 6, 10, 15, 21]

/-- leWords packs bytes into 32-bit little-endian words. -/
def leWords : List Nat → List Nat
  | b0 :: b1 :: b2 :: b3 :: rest =>
    (b0 + 256 * b1 + 65536 * b2 + 16777216 * b3) :: leWords rest
  | _ => []

/-- leBytes produces the k little-endian bytes of n. -/
def leBytes : Nat → Nat → List Nat
  | 0, _ => []
  | k + 1, n => (n % 256) :: leBytes k (n / 256)

def rotl32 (x r : Nat) : Nat := ((x <<< r) ||| (x >>> (32 - r))) % 2 ^ 32

/-- md5F gives the round function value and message index for step i. -/
def md5F (i b c d : Nat) : Nat × Nat :=
  if i < 16 then ((b &&& c) ||| ((0xFFFFFFFF ^^^ b) &&& d), i)
  else if i < 32 then ((d &&& b) ||| ((0xFFFFFFFF ^^^ d) &&& c), (5 * i + 1) % 16)
  else if i < 48 then (b ^^^ c ^^^ d, (3 * i + 5) % 16)
  else (c ^^^ (b ||| (0xFFFFFFFF ^^^ d)), (7 * i) % 16)

def md5Step (m : List Nat) (st : Nat × Nat × Nat × Nat) (i : Nat) :
    Nat × Nat × Nat × Nat :=
  match st with
  | (a, b, c, d) =>
    let fg := md5F i b c d
    let f' := (fg.1 + a + md5K.getD i 0 + m.getD fg.2 0) % 2 ^ 32
    (d, (b + rotl32 f' (md5S.getD i 0)) % 2 ^ 32, b, c)

def md5Compress (st : Nat × Nat × Nat × Nat) (block : List Nat) :
    Nat × Nat × Nat × Nat :=
  let m := leWords block
  match st, (List.range 64).foldl (md5Step m) st with
  | (a0, b0, c0, d0), (a, b, c, d) =>
    ((a0 + a) % 2 ^ 32, (b0 + b) % 2 ^ 32, (c0 + c) % 2 ^ 32, (d0 + d) % 2 ^ 32)

/-- md5Process consumes the padded message 64 bytes at a time; the fuel
argument (instantiated with the message length, an upper bound on the block
count) only makes the recursion structural. -/
def md5Process : Nat → (Nat × Nat × Nat × Nat) → List Nat → Nat × Nat × Nat × Nat
  | 0, st, _ => st
  | fuel + 1, st, bytes =>
    if bytes.isEmpty then st
    else md5Process fuel (md5Compress st (bytes.take 64)) (bytes.drop 64)

/-- md5 of a byte string: pad to 56 mod 64, append the 64-bit little-endian
bit length, run the compression, emit the 16 digest bytes. -/
def md5 (msg : List Nat) : List Nat :=
  let r := (msg.length + 1) % 64
  let zeros := (56 + 64 - r) % 64
  let padded := msg ++ [0x80] ++ List.replicate zeros 0 ++
    leBytes 8 ((8 * msg.length) % 2 ^ 64)
  match md5Process padded.length (0x67452301, 0xefcdab89, 0x98badcfe, 0x10325476)
      padded with
  | (a, b, c, d) => leBytes 4 a ++ leBytes 4 b ++ leBytes 4 c ++ leBytes 4 d

def hexDigit (n : Nat) : Char := if n < 10 then Char.ofNat (48 + n) else Char.ofNat (87 + n)

def hexOfBytes (bytes : List Nat) : String :=
  ⟨bytes.flatMap (fun b => [hexDigit (b / 16), hexDigit (b % 16)])⟩

/-- specHashMD5Bytes follows the spec's words for claim comparison (no such
code exists in src/hashring/hashring.go): "FNV-1a 64-bit of an MD5-bridged
seed", reading the MD5 digest as its 16 raw bytes (the way the older
top-level revisions fed `md5.Sum` into an fnv writer). -/
def specHashMD5Bytes (key : String) : Int := toInt64 (fnv1a64 (md5 (strBytes key)))

/-- specHashMD5Hex follows the spec's words for claim comparison, reading the
MD5 digest as its lowercase hexadecimal string. -/
def specHashMD5Hex (key : String) : Int :=
  toInt64 (fnv1a64 (strBytes (hexOfBytes (md5 (strBytes key)))))

/-- specHashFnv1a follows the spec's words for claim comparison: plain
FNV-1a 64-bit of the seed itself (no MD5 bridge). -/
def specHashFnv1a (key : String) : Int := toInt64 (fnv1a64 (strBytes key))

/-- CacheDefaults records the configuration defaults relevant here. -/
structure CacheDefaults where
  virtualNodes : Nat
  timeoutSeconds : Nat
  hashFunc : HashFn

/-- newCacheDefaults models the defaults installed by `NewCache`
(src/cache.go lines 76-89): `virtualNodes: 32`, `timeout: 3s`,
`hashFunc: hashring.DefaultHashFunc`. -/
def newCacheDefaults : CacheDefaults :=
  { virtualNodes := 32, timeoutSeconds := 3, hashFunc := defaultHashFunc }

/-! ## Metrics (src/metrics.go)

Counters are `Nat` (Go `atomic.Int64` starting at 0 and only incremented).
`incGet`/`incMiss`/`incPut`/`incEvict`/`incCall` below model the
corresponding helpers; at every call site the Go code passes both the
table's and the cache's metrics, so the table functions apply them to both. -/

structure MetricsS where
  miss : Nat
  get : Nat
  put : Nat
  evict : Nat
  call : List (String × Nat)
  deriving DecidableEq, Repr

def MetricsS.zero : MetricsS := ⟨0, 0, 0, 0, []⟩

def incMiss (m : MetricsS) : MetricsS := { m with miss := m.miss + 1 }

def incGet (m : MetricsS) : MetricsS := { m with get := m.get + 1 }

def incPut (m : MetricsS) : MetricsS := { m with put := m.put + 1 }

def incEvict (delta : Nat) (m : MetricsS) : MetricsS := { m with evict := m.evict + delta }

def incCall (procedure : String) (m : MetricsS) : MetricsS :=
  { m with call := aupsert m.call procedure ((alookup m.call procedure).getD 0 + 1) }

/-! ## Table / Router (src/unnamed/part_012, the current table.go revision)

The table is modelled for `T = String` with the `StringCodec` (the codec the
library auto-selects for string tables: `Encode`/`Decode` are the identity),
so byte slices are `String`s and `nil` bytes are identified with the empty
string.  The gRPC client is out of scope; each `...FromPeer` function takes
the peer's response as an oracle argument.  `singleflight.Do` with a single
caller executes its function directly, which is what the sequential model
does.  Errors: `TblErr.user` carries store/transport error text. -/

inductive TblErr
  | cacheDestroyed
  | keyNotFound
  | rpcNotFound
  | user (msg : String)
  deriving DecidableEq, Repr

/-- Procedures registered on a table: `(value, args) → (newValue, ttl, err)`
(`Procedure[T]` with `T = String`, context elided). -/
def ProcT : Type := String → String → Except String (String × Int)

structure TableS (σ σh : Type) where
  store : StoreState String String σ
  hotStore : Option (StoreState String String σh)
  procedures : List (String × ProcT)
  metrics : MetricsS
  autofill : Bool

/-- PeerGetRes models the translated `GetResponse`: the item's value bytes,
its expiry in microseconds, and the hit flag. -/
structure PeerGetRes where
  value : String
  expireMicros : Int
  hit : Bool

/-- getLocally models `(t *Table[T]) getLocally` (src/unnamed/part_012 lines
418-433): increment `get` on the table's and the cache's metrics, read the
local store (single-flight collapsed), and increment `miss` on both when the
read reports `hit = false`. -/
def getLocally {σ σh : Type} (impl : StorageImpl String String σ) (now : Int)
    (t : TableS σ σh) (cm : MetricsS) (key : String) :
    Option ((TableS σ σh × MetricsS) × Item String × Bool × Option String) :=
  let t₁ := { t with metrics := incGet t.metrics }
  let cm₁ := incGet cm
  match storeGet impl now t₁.store key with
  | none => none
  | some (s', itm, hit, err) =>
    let t₂ := { t₁ with store := s' }
    if hit then some ((t₂, cm₁), itm, hit, err)
    else some (({ t₂ with metrics := incMiss t₂.metrics }, incMiss cm₁), itm, hit, err)

/-- putLocally models `(t *Table[T]) putLocally` (lines 435-439): increment
`put` on both metrics and store the item. -/
def putLocally {σ σh : Type} (impl : StorageImpl String String σ)
    (t : TableS σ σh) (cm : MetricsS) (key : String) (item : Item String) :
    Option (TableS σ σh × MetricsS) :=
  match storePut impl t.store key item with
  | none => none
  | some s' => some ({ t with store := s', metrics := incPut t.metrics }, incPut cm)

/-- evictLocally models `(t *Table[T]) evictLocally` (lines 441-448):
increment `evict` by one on both metrics and evict from the local store
(single-flight collapsed). -/
def evictLocally {σ σh : Type} (impl : StorageImpl String String σ)
    (t : TableS σ σh) (cm : MetricsS) (key : String) :
    Option (TableS σ σh × MetricsS) :=
  match storeEvict impl t.store key with
  | none => none
  | some s' =>
    some ({ t with store := s', metrics := incEvict 1 t.metrics }, incEvict 1 cm)

/-- callLocally models `(t *Table[T]) callLocally` (lines 455-484): increment
the procedure's `call` counter on both metrics, look the procedure up
(absent: `ErrRPCNotFound`), then run `store.Update` with the codec-wrapped
mutator (identity codec here). -/
def callLocally {σ σh : Type} (impl : StorageImpl String String σ) (now : Int)
    (t : TableS σ σh) (cm : MetricsS) (key procedure args : String) :
    Option ((TableS σ σh × MetricsS) × Except TblErr (Item String)) :=
  let t₁ := { t with metrics := incCall procedure t.metrics }
  let cm₁ := incCall procedure cm
  match alookup t₁.procedures procedure with
  | none => some ((t₁, cm₁), .error .rpcNotFound)
  | some fn =>
    match storeUpdate impl now t₁.store key (fun v => fn v args) with
    | none => none
    | some (s', .error e) => some (({ t₁ with store := s' }, cm₁), .error (.user e))
    | some (s', .ok itm) => some (({ t₁ with store := s' }, cm₁), .ok itm)

/-- getFromPeer models `(t *Table[T]) getFromPeer` (lines 486-513): on a
transport error return it; otherwise translate the response into an item
whose expiry is `time.UnixMicro(res.Item.Expire)` — a non-zero instant even
for `0` — and, when hot cache is enabled, put that item into the hot store
under the REQUEST key, regardless of the response's hit flag.  No metric is
touched. -/
def getFromPeer {σ σh : Type} (implh : StorageImpl String String σh)
    (t : TableS σ σh) (cm : MetricsS) (key : String)
    (resp : Except String PeerGetRes) :
    Option ((TableS σ σh × MetricsS) × Except TblErr (Item String × Bool)) :=
  match resp with
  | .error e => some ((t, cm), .error (.user e))
  | .ok r =>
    let item : Item String := { expire := some r.expireMicros, value := r.value }
    match t.hotStore with
    | none => some ((t, cm), .ok (item, r.hit))
    | some hs =>
      match storePut implh hs key item with
      | none => none
      | some hs' => some (({ t with hotStore := some hs' }, cm), .ok (item, r.hit))

/-- putFromPeer models `(t *Table[T]) putFromPeer` (lines 515-534): build the
item, send it (oracle outcome), and on success mirror it into the hot store
when enabled.  No metric is touched. -/
def putFromPeer {σ σh : Type} (implh : StorageImpl String String σh) (now : Int)
    (t : TableS σ σh) (cm : MetricsS) (key b : String) (ttl : Int)
    (resp : Except String Unit) :
    Option ((TableS σ σh × MetricsS) × Except TblErr Unit) :=
  let item := mkItem b ttl now
  match resp with
  | .error e => some ((t, cm), .error (.user e))
  | .ok _ =>
    match t.hotStore with
    | none => some ((t, cm), .ok ())
    | some hs =>
      match storePut implh hs key item with
      | none => none
      | some hs' => some (({ t with hotStore := some hs' }, cm), .ok ())

/-- evictFromPeer models `(t *Table[T]) evictFromPeer` (lines 536-552): send
the eviction (oracle outcome) and on success mirror it into the hot store
when enabled.  No metric is touched. -/
def evictFromPeer {σ σh : Type} (implh : StorageImpl String String σh)
    (t : TableS σ σh) (cm : MetricsS) (key : String)
    (resp : Except String Unit) :
    Option ((TableS σ σh × MetricsS) × Except TblErr Unit) :=
  match resp with
  | .error e => some ((t, cm), .error (.user e))
  | .ok _ =>
    match t.hotStore with
    | none => some ((t, cm), .ok ())
    | some hs =>
      match storeEvict implh hs key with
      | none => none
      | some hs' => some (({ t with hotStore := some hs' }, cm), .ok ())

/-- callFromPeer models `(t *Table[T]) callFromPeer` (lines 568-594):
forward the call (oracle outcome: value bytes and expiry micros), translate
the response item, and mirror it into the hot store when enabled.  No metric
is touched. -/
def callFromPeer {σ σh : Type} (implh : StorageImpl String String σh)
    (t : TableS σ σh) (cm : MetricsS) (key : String)
    (resp : Except String (String × Int)) :
    Option ((TableS σ σh × MetricsS) × Except TblErr (Item String)) :=
  match resp with
  | .error e => some ((t, cm), .error (.user e))
  | .ok (v, exp) =>
    let item : Item String := { expire := some exp, value := v }
    match t.hotStore with
    | none => some ((t, cm), .ok item)
    | some hs =>
      match storePut implh hs key item with
      | none => none
      | some hs' => some (({ t with hotStore := some hs' }, cm), .ok item)

/-- NodeCtx carries the node's identity and its view of the ring, the two
inputs of the owner dispatch (`t.cache.ring.GetOwner` / `t.cache.self.ID`). -/
structure NodeCtx where
  selfID : String
  ring : RingS

/-- tableGet models `(t *Table[T]) Get` (lines 156-196) for a live table:
resolve the owner; dispatch locally or to the peer (oracle response); a miss
without autofill is `ErrKeyNotFound`; otherwise decode (identity codec). -/
def tableGet {σ σh : Type} (impl : StorageImpl String String σ)
    (implh : StorageImpl String String σh) (now : Int) (ctx : NodeCtx)
    (t : TableS σ σh) (cm : MetricsS) (key : String)
    (peerResp : Except String PeerGetRes) :
    Option ((TableS σ σh × MetricsS) × Except TblErr String) :=
  match getOwner ctx.ring key with
  | none => none
  | some (.error e) => some ((t, cm), .error (.user e))
  | some (.ok ownerID) =>
    let afterDispatch :
        Option ((TableS σ σh × MetricsS) × Except TblErr (Item String × Bool)) :=
      if ownerID = ctx.selfID then
        match getLocally impl now t cm key with
        | none => none
        | some ((t', cm'), itm, hit, err) =>
          match err with
          | some e => some ((t', cm'), .error (.user e))
          | none => some ((t', cm'), .ok (itm, hit))
      else getFromPeer implh t cm key peerResp
    match afterDispatch with
    | none => none
    | some ((t', cm'), .error e) => some ((t', cm'), .error e)
    | some ((t', cm'), .ok (itm, hit)) =>
      if !hit && !t'.autofill then some ((t', cm'), .error .keyNotFound)
      else some ((t', cm'), .ok itm.value)

/-- getFromHotCache models `(t *Table[T]) getFromHotCache` (lines 596-601). -/
def getFromHotCache {σ σh : Type} (implh : StorageImpl String String σh)
    (now : Int) (t : TableS σ σh) (key : String) :
    Option (TableS σ σh × Except String (Item String × Bool)) :=
  match t.hotStore with
  | none => some (t, .error "hot cache not enabled")
  | some hs =>
    match storeGet implh now hs key with
    | none => none
    | some (hs', itm, hit, err) =>
      let t' := { t with hotStore := some hs' }
      match err with
      | some e => some (t', .error e)
      | none => some (t', .ok (itm, hit))

/-- getHot models `(t *Table[T]) GetHot` (lines 373-408) for a live table:
the owner reads its primary store directly; any other node reads the hot
cache; a reported miss is `ErrKeyNotFound`; otherwise decode (identity
codec). -/
def getHot {σ σh : Type} (impl : StorageImpl String String σ)
    (implh : StorageImpl String String σh) (now : Int) (ctx : NodeCtx)
    (t : TableS σ σh) (key : String) :
    Option (TableS σ σh × Except TblErr String) :=
  match getOwner ctx.ring key with
  | none => none
  | some (.error e) => some (t, .error (.user e))
  | some (.ok ownerID) =>
    let read : Option (TableS σ σh × Except String (Item String × Bool)) :=
      if ownerID = ctx.selfID then
        match storeGet impl now t.store key with
        | none => none
        | some (s', itm, hit, err) =>
          let t' := { t with store := s' }
          match err with
          | some e => some (t', .error e)
          | none => some (t', .ok (itm, hit))
      else getFromHotCache implh now t key
    match read with
    | none => none
    | some (t', .error e) => some (t', .error (.user e))
    | some (t', .ok (itm, hit)) =>
      if !hit then some (t', .error .keyNotFound)
      else some (t', .ok itm.value)

/-! ## Cache lifecycle and teardown (src/cache.go, src/unnamed/part_012)

Go's `Cache` and `Table` objects live on the heap and alias: `c.tables`
holds pointers to the very objects users hold.  `Sys` models that heap:
`cacheLive` is `c.tables != nil` (so `(c *Cache) isZero`, src/cache.go lines
326-328, is its negation), and each registered table object records whether
its `cache` pointer is non-nil (`(t *Table[T]) isZero`, part_012 lines
609-611).  `TearDown` (src/cache.go lines 227-247) zeroes every registered
table (`tearDown`, part_012 lines 603-607, does `*t = Table[T]{}`) and then
`*c = Cache{}`.  Server/clients are transport-level and carry no model
state; operations whose bodies are transport-only (`SetPeers`' ring/client
reconciliation, `ListenAndServe`, `HealthCheckPeers`) take their live-path
body as an explicit function argument — the theorems below hold for every
such body, which is exactly what the lifecycle guard guarantees. -/

structure TableObj (σ σh : Type) where
  attached : Bool
  tbl : TableS σ σh

structure Sys (σ σh : Type) where
  cacheLive : Bool
  heap : List (String × TableObj σ σh)
  cacheMetrics : MetricsS

/-- cacheIsZero models `(c *Cache) isZero` (src/cache.go lines 326-328):
`c == nil || c.tables == nil`. -/
def cacheIsZero {σ σh : Type} (s : Sys σ σh) : Bool := !s.cacheLive

/-- tableIsZero models `(t *Table[T]) isZero` (part_012 lines 609-611):
`t == nil || t.cache == nil`, looked up through the user's handle. -/
def tableIsZero {σ σh : Type} (s : Sys σ σh) (name : String) : Bool :=
  match alookup s.heap name with
  | some o => !o.attached
  | none => true

/-- sysBuildTable models `(tb *TableBuilder[T]) Build(c)` registering the new
table in `c.tables` (src/table_builder.go lines 64-91): the object holds a
live cache pointer and is registered under its name. -/
def sysBuildTable {σ σh : Type} (s : Sys σ σh) (name : String) (t : TableS σ σh) :
    Sys σ σh :=
  { s with heap := aupsert s.heap name ⟨true, t⟩ }

/-- detachAll is the teardown sweep: every registered table object loses its
cache pointer (`*t = Table[T]{}` for each `c.tables[i]`) and the cache is
zeroed (`*c = Cache{}`). -/
def detachAll {σ σh : Type} (s : Sys σ σh) : Sys σ σh :=
  { s with cacheLive := false,
           heap := s.heap.map (fun p => (p.1, { p.2 with attached := false })) }

/-- sysTearDown models `(c *Cache) TearDown` (src/cache.go lines 227-247):
guard on `isZero`, then zero every registered table and the cache itself
(client closing and server stop carry no model state). -/
def sysTearDown {σ σh : Type} (s : Sys σ σh) : Except TblErr (Sys σ σh) :=
  if cacheIsZero s then .error .cacheDestroyed else .ok (detachAll s)

/-- cacheGetMetrics models `(c *Cache) GetMetrics` (src/cache.go lines
159-164). -/
def cacheGetMetrics {σ σh : Type} (s : Sys σ σh) : Except TblErr MetricsS :=
  if cacheIsZero s then .error .cacheDestroyed else .ok s.cacheMetrics

/-- cacheSetPeers models the lifecycle guard of `(c *Cache) SetPeers`
(src/cache.go lines 167-222); the membership-validation and ring/client
reconciliation body is the function argument. -/
def cacheSetPeers {σ σh : Type}
    (body : Sys σ σh → List (String × String) → Except TblErr (Sys σ σh))
    (s : Sys σ σh) (peers : List (String × String)) : Except TblErr (Sys σ σh) :=
  if cacheIsZero s then .error .cacheDestroyed else body s peers

/-- cacheListenAndServe models the lifecycle guard of
`(c *Cache) ListenAndServe` (src/cache.go lines 250-255); serving is the
function argument. -/
def cacheListenAndServe {σ σh : Type} (body : Sys σ σh → Except TblErr Unit)
    (s : Sys σ σh) : Except TblErr Unit :=
  if cacheIsZero s then .error .cacheDestroyed else body s

/-- cacheHealthCheckPeers models the lifecycle guard of
`(c *Cache) HealthCheckPeers` (src/cache.go lines 258-270); the round of
client health checks is the function argument. -/
def cacheHealthCheckPeers {σ σh : Type} (body : Sys σ σh → Except TblErr Unit)
    (s : Sys σ σh) : Except TblErr Unit :=
  if cacheIsZero s then .error .cacheDestroyed else body s

/-- sysWithTable runs a live-table operation through a user's table handle,
after the `isZero` guard every public `Table` method starts with (part_012
lines 157, 199, 232, 270, 330, 374, 412). -/
def sysWithTable {σ σh α : Type} (s : Sys σ σh) (name : String)
    (op : TableS σ σh → MetricsS → Option ((TableS σ σh × MetricsS) × Except TblErr α)) :
    Option (Sys σ σh × Except TblErr α) :=
  match alookup s.heap name with
  | none => some (s, .error .cacheDestroyed)
  | some o =>
    if !o.attached then some (s, .error .cacheDestroyed)
    else
      match op o.tbl s.cacheMetrics with
      | none => none
      | some ((t', cm'), res) =>
        some ({ s with heap := aupsert s.heap name ⟨true, t'⟩, cacheMetrics := cm' }, res)

/-- sysTableGet models `(t *Table[T]) Get` behind its guard. -/
def sysTableGet {σ σh : Type} (impl : StorageImpl String String σ)
    (implh : StorageImpl String String σh) (now : Int) (ctx : NodeCtx)
    (s : Sys σ σh) (name key : String) (peerResp : Except String PeerGetRes) :
    Option (Sys σ σh × Except TblErr String) :=
  sysWithTable s name (fun t cm => tableGet impl implh now ctx t cm key peerResp)

/-- sysTablePut models `(t *Table[T]) Put` (lines 198-229) behind its guard:
encode (identity codec), resolve the owner, store locally or forward. -/
def sysTablePut {σ σh : Type} (impl : StorageImpl String String σ)
    (implh : StorageImpl String String σh) (now : Int) (ctx : NodeCtx)
    (s : Sys σ σh) (name key value : String) (ttl : Int)
    (resp : Except String Unit) : Option (Sys σ σh × Except TblErr Unit) :=
  sysWithTable s name (fun t cm =>
    match getOwner ctx.ring key with
    | none => none
    | some (.error e) => some ((t, cm), .error (.user e))
    | some (.ok ownerID) =>
      if ownerID = ctx.selfID then
        match putLocally impl t cm key (mkItem value ttl now) with
        | none => none
        | some (t', cm') => some ((t', cm'), .ok ())
      else putFromPeer implh now t cm key value ttl resp)

/-- sysTableEvict models `(t *Table[T]) Evict` (lines 231-256) behind its
guard. -/
def sysTableEvict {σ σh : Type} (impl : StorageImpl String String σ)
    (implh : StorageImpl String String σh) (ctx : NodeCtx)
    (s : Sys σ σh) (name key : String) (resp : Except String Unit) :
    Option (Sys σ σh × Except TblErr Unit) :=
  sysWithTable s name (fun t cm =>
    match getOwner ctx.ring key with
    | none => none
    | some (.error e) => some ((t, cm), .error (.user e))
    | some (.ok ownerID) =>
      if ownerID = ctx.selfID then
        match evictLocally impl t cm key with
        | none => none
        | some (t', cm') => some ((t', cm'), .ok ())
      else evictFromPeer implh t cm key resp)

/-- sysTableCall models `(t *Table[T]) Call` (lines 329-368) behind its
guard (identity codec; `nil` response bytes identified with `""`). -/
def sysTableCall {σ σh : Type} (impl : StorageImpl String String σ)
    (implh : StorageImpl String String σh) (now : Int) (ctx : NodeCtx)
    (s : Sys σ σh) (name key procedure args : String)
    (resp : Except String (String × Int)) :
    Option (Sys σ σh × Except TblErr String) :=
  sysWithTable s name (fun t cm =>
    match getOwner ctx.ring key with
    | none => none
    | some (.error e) => some ((t, cm), .error (.user e))
    | some (.ok ownerID) =>
      let dispatched :
          Option ((TableS σ σh × MetricsS) × Except TblErr (Item String)) :=
        if ownerID = ctx.selfID then callLocally impl now t cm key procedure args
        else callFromPeer implh t cm key resp
      match dispatched with
      | none => none
      | some ((t', cm'), .error e) => some ((t', cm'), .error e)
      | some ((t', cm'), .ok itm) => some ((t', cm'), .ok itm.value))

/-- sysTableEvictAll models `(t *Table[T]) EvictAll` (lines 269-324) behind
its guard, for the self-owned portion: partition by owner, evict self-owned
keys locally in one batch (`evictAllLocally`, lines 450-453, increments
`evict` by the batch size), forward the rest (oracle outcomes, one per
remote owner, folded in order). -/
def sysTableEvictAll {σ σh : Type} (impl : StorageImpl String String σ)
    (ctx : NodeCtx) (s : Sys σ σh) (name : String) (keys : List String) :
    Option (Sys σ σh × Except TblErr Unit) :=
  sysWithTable s name (fun t cm =>
    match keys.foldlM (fun (acc : List String × List String) key =>
        match getOwner ctx.ring key with
        | none => none
        | some (.error _) => none
        | some (.ok ownerID) =>
          if ownerID = ctx.selfID then some (acc.1 ++ [key], acc.2)
          else some (acc.1, acc.2 ++ [key])) (([], []) : List String × List String) with
    | none => none
    | some (selfKeys, _) =>
      match selfKeys.foldlM (fun st key =>
          match storeEvict impl st key with
          | none => none
          | some st' => some st') t.store with
      | none => none
      | some st' =>
        some (({ t with store := st',
                        metrics := incEvict selfKeys.length t.metrics },
               incEvict selfKeys.length cm), .ok ()))

/-- sysTableGetHot models `(t *Table[T]) GetHot` behind its guard. -/
def sysTableGetHot {σ σh : Type} (impl : StorageImpl String String σ)
    (implh : StorageImpl String String σh) (now : Int) (ctx : NodeCtx)
    (s : Sys σ σh) (name key : String) : Option (Sys σ σh × Except TblErr String) :=
  sysWithTable s name (fun t cm =>
    match getHot impl implh now ctx t key with
    | none => none
    | some (t', res) => some ((t', cm), res))

/-- sysTableGetMetrics models `(t *Table[T]) GetMetrics` (lines 411-416)
behind its guard. -/
def sysTableGetMetrics {σ σh : Type} (s : Sys σ σh) (name : String) :
    Option (Sys σ σh × Except TblErr MetricsS) :=
  sysWithTable s name (fun t cm => some ((t, cm), .ok t.metrics))

/-! ## Auxiliary definitions for statements and concrete instances -/

/-- alookupD reads an association list with a default, as a Go map read. -/
def alookupD {K V : Type} [DecidableEq K] (l : List (K × V)) (k : K) (d : V) : V :=
  (alookup l k).getD d

/-- firstGEPoint is the spec's description of the owner point: the first
point `≥ sum` in ascending order, wrapping to the front point. -/
def firstGEPoint (points : List Int) (sum : Int) : Int :=
  match points.find? (fun p => sum ≤ p) with
  | some p => p
  | none => points.headD 0

/-- lenHash is a simple deterministic test hash (the role
`test.SimpleHashFunc` plays in the Go tests). -/
def lenHash : HashFn := fun s => .ok (s.length : Int)

/-- c4Ring is the ring `ringNew ["b","a"] 1 lenHash 5` evaluates to: members
sorted to ["a","b"]; seed "0a" hashes to 2, seed "0b" collides at 2 and
resolves to 3 via the dash-pfx loop. -/
def c4Ring : RingS :=
  { hashFn := lenHash, hashMap := [(2, "a"), (3, "b")], points := [2, 3],
    members := ["a", "b"], virtualNodes := 1 }

/-- c6Ring is a concrete two-member ring with sorted points for witnesses:
key "xx" hashes to 2, so its owner is the member at point 5. -/
def c6Ring : RingS :=
  { hashFn := lenHash, hashMap := [(5, "b"), (9, "a")], points := [5, 9],
    members := ["a", "b"], virtualNodes := 1 }

/-- c6RingSolo is a concrete single-member ring (points deliberately stale to
show they are not consulted). -/
def c6RingSolo : RingS :=
  { hashFn := fun _ => .error "hash must not be called", hashMap := [],
    points := [], members := ["solo"], virtualNodes := 3 }

/-- lfuBugTrace drives the LFU exactly as `Put "a"; Put "b"; Get "a"; Put "c"`
on `NewLFU(2)` would: at the last Put the store holds "a" (accessed twice)
and "b" (accessed once) and must evict one of them. -/
def lfuBugTrace : Option (LFUState String String) := do
  let s0 := newLFU String String 2
  let (s1, _) ← lfuPut s0 "a" (mkItem "1" 0 0) false
  let (s2, _) ← lfuPut s1 "b" (mkItem "2" 0 0) false
  let (s3, _, _) ← lfuGet s2 "a" false
  let (s4, _) ← lfuPut s3 "c" (mkItem "3" 0 0) false
  pure s4

/-- lruC2Run drives a LocalStore over LRU(2) with no getter through
`put k v; evict k; get k` and returns the final `(item, hit)`. -/
def lruC2Run : Option (Item String × Bool) := do
  let s0 : StoreState String String (LRUState String String) :=
    ⟨none, newLRU String String 2⟩
  let s1 ← storePut (lruStorage String String) s0 "k" (mkItem "v" 0 0)
  let s2 ← storeEvict (lruStorage String String) s1 "k"
  let (_, itm, hit, _) ← storeGet (lruStorage String String) 0 s2 "k"
  pure (itm, hit)

/-- c3Store holds key "k" with an item that is expired at instant 10, and has
no getter. -/
def c3Store : StoreState String String (MapState String String) :=
  ⟨none, [("k", ⟨some 5, "v"⟩)]⟩

/-- c7Getter is a cache-aside loader that always returns ("e", no ttl). -/
def c7Getter : String → Except String (String × Int) := fun _ => .ok ("e", 0)

/-- c7Run updates absent key "k" on an empty store with getter `c7Getter`,
with a mutator that fails; the Go claim is the store is then unchanged. -/
def c7Run : Option (StoreState String String (MapState String String) ×
    Except String (Item String)) :=
  storeUpdate (mapStorage String String) 0 ⟨some c7Getter, []⟩ "k"
    (fun _ => .error "boom")


/-- c8Table is a concrete empty table over map storage with zero metrics. -/
def c8Table : TableS (MapState String String) (MapState String String) :=
  { store := ⟨none, []⟩, hotStore := none, procedures := [],
    metrics := MetricsS.zero, autofill := false }

/-- c8TableAfter is `c8Table` after one local miss: `get = 1`, `miss = 1`. -/
def c8TableAfter : TableS (MapState String String) (MapState String String) :=
  { store := ⟨none, []⟩, hotStore := none, procedures := [],
    metrics := ⟨1, 1, 0, 0, []⟩, autofill := false }


/-- c9Sys is a concrete cache system with one built table named "t". -/
def c9Sys : Sys (MapState String String) (MapState String String) :=
  sysBuildTable ⟨true, [], MetricsS.zero⟩ "t" c8Table


/-- c10Ctx is node "a"'s view of the two-member ring. -/
def c10Ctx : NodeCtx := ⟨"a", c6Ring⟩

/-- c10Table is a table with an empty primary store and an empty hot store. -/
def c10Table : TableS (MapState String String) (MapState String String) :=
  { store := ⟨none, []⟩, hotStore := some ⟨none, []⟩, procedures := [],
    metrics := MetricsS.zero, autofill := false }

/-- c10TableAfter is `c10Table` after the remote miss for "xx" was mirrored
into the hot store. -/
def c10TableAfter : TableS (MapState String String) (MapState String String) :=
  { store := ⟨none, []⟩, hotStore := some ⟨none, [("xx", ⟨some 0, ""⟩)]⟩,
    procedures := [], metrics := MetricsS.zero, autofill := false }

/-! # Theorems -/

set_option maxRecDepth 1024

/-! ### Order theory for the Go byte-wise string order (used by member sorting) -/

lemma charLtB_irrefl : ∀ l : List Char, charLtB l l = false := by
  intro l
  induction l with
  | nil => rfl
  | cons a as ih => simp [charLtB, ih]

lemma charLtB_eq_of_not_lt : ∀ a b : List Char,
    charLtB a b = false → charLtB b a = false → a = b := by
  intro a
  induction a with
  | nil =>
    intro b hab hba
    cases b with
    | nil => rfl
    | cons x xs => simp [charLtB] at hab
  | cons x xs ih =>
    intro b hab hba
    cases b with
    | nil => simp [charLtB] at hba
    | cons y ys =>
      by_cases hxy : x.toNat < y.toNat
      · simp [charLtB, hxy] at hab
      · by_cases hyx : y.toNat < x.toNat
        · simp [charLtB, hxy, hyx] at hba
        · have hx : x = y := Char.ext (by
            have : x.toNat = y.toNat := by omega
            exact UInt32.ext this)
          subst hx
          simp [charLtB, hxy] at hab hba
          rw [ih _ hab hba]

lemma charLtB_trans : ∀ a b c : List Char,
    charLtB a b = true → charLtB b c = true → charLtB a c = true := by
  intro a
  induction a with
  | nil =>
    intro b c hab hbc
    cases b with
    | nil => simp [charLtB] at hab
    | cons y ys =>
      cases c with
      | nil => simp [charLtB] at hbc
      | cons z zs => simp [charLtB]
  | cons x xs ih =>
    intro b c hab hbc
    cases b with
    | nil => simp [charLtB] at hab
    | cons y ys =>
      cases c with
      | nil => simp [charLtB] at hbc
      | cons z zs =>
        simp only [charLtB] at hab hbc ⊢
        by_cases hxy : x.toNat < y.toNat
        · by_cases hyz : y.toNat < z.toNat
          · simp [show x.toNat < z.toNat by omega]
          · by_cases hzy : z.toNat < y.toNat
            · simp [hyz, hzy] at hbc
            · simp [show x.toNat < z.toNat by omega]
        · by_cases hyx : y.toNat < x.toNat
          · simp [hxy, hyx] at hab
          · simp [hxy, hyx] at hab
            by_cases hyz : y.toNat < z.toNat
            · simp [show x.toNat < z.toNat by omega]
            · by_cases hzy : z.toNat < y.toNat
              · simp [hyz, hzy] at hbc
              · simp [hyz, hzy] at hbc
                have hxz : ¬ x.toNat < z.toNat := by omega
                have hzx : ¬ z.toNat < x.toNat := by omega
                simp [hxz, hzx]
                exact ih _ _ hab hbc

lemma string_data_eq {a b : String} (h : a.data = b.data) : a = b := by
  cases a
  cases b
  simp only at h
  rw [h]

instance : IsTrans String strLe where
  trans := by
    intro a b c hab hbc
    unfold strLe strLtB at *
    by_cases h1 : charLtB a.data b.data = true
    · by_contra hc
      have hc' : charLtB c.data a.data = true := by
        cases hca : charLtB c.data a.data
        · exact absurd hca hc
        · rfl
      have := charLtB_trans _ _ _ hc' h1
      rw [this] at hbc
      exact Bool.true_eq_false.mp hbc
    · have h1' : charLtB a.data b.data = false := by
        cases hab' : charLtB a.data b.data
        · rfl
        · exact absurd hab' h1
      have heq : a.data = b.data := charLtB_eq_of_not_lt _ _ h1' hab
      rw [← heq] at hbc
      exact hbc

instance : IsTotal String strLe where
  total := by
    intro a b
    unfold strLe strLtB
    by_cases h1 : charLtB b.data a.data = true
    · by_cases h2 : charLtB a.data b.data = true
      · have := charLtB_trans _ _ _ h1 h2
        rw [charLtB_irrefl] at this
        exact absurd this (by simp)
      · right
        cases h : charLtB a.data b.data
        · rfl
        · exact absurd h h2
    · left
      cases h : charLtB b.data a.data
      · rfl
      · exact absurd h h1

instance : IsAntisymm String strLe where
  antisymm := by
    intro a b hab hba
    unfold strLe strLtB at *
    exact string_data_eq (charLtB_eq_of_not_lt _ _ hba hab)


lemma alookup_eq_none {K V : Type} [DecidableEq K] (l : List (K × V)) (k : K) :
    alookup l k = none ↔ k ∉ l.map Prod.fst := by
  induction l with
  | nil => simp [alookup]
  | cons p tl ih =>
    obtain ⟨a, b⟩ := p
    by_cases h : a = k <;> simp [alookup, h, ih]
    · tauto

lemma alookup_mem {K V : Type} [DecidableEq K] {l : List (K × V)} {k : K} {v : V}
    (h : alookup l k = some v) : (k, v) ∈ l := by
  induction l with
  | nil => simp [alookup] at h
  | cons p tl ih =>
    obtain ⟨a, b⟩ := p
    by_cases ha : a = k
    · subst ha
      simp [alookup] at h
      simp [h]
    · simp [alookup, ha] at h
      simp [ih h]

lemma alookup_isSome_of_mem_fst {K V : Type} [DecidableEq K] {l : List (K × V)} {k : K}
    (h : k ∈ l.map Prod.fst) : ∃ v, alookup l k = some v := by
  rcases hv : alookup l k with _ | v
  · rw [alookup_eq_none] at hv
    exact absurd h hv
  · exact ⟨v, rfl⟩

lemma findPoint_fresh (hashFn : HashFn) (hm : List (Int × String)) (key : String) :
    ∀ (fuel : Nat) (pfx : String) (h : Int),
      findPoint hashFn hm key fuel pfx = some (.ok h) → alookup hm h = none := by
  intro fuel
  induction fuel with
  | zero => intro pfx h hf; simp [findPoint] at hf
  | succ n ih =>
    intro pfx h hf
    rw [findPoint] at hf
    split at hf
    · simp at hf
    · split at hf
      · exact ih _ _ hf
      · rename_i v hh hs
        simp at hf
        subst hf
        rcases halu : alookup hm v with _ | w
        · rfl
        · exact absurd (by rw [halu]; rfl) hs

lemma populateGo_spec (hashFn : HashFn) (fuel : Nat) :
    ∀ (seeds : List (String × String)) (hm : List (Int × String)) (pts : List Int)
      (res : List (Int × String) × List Int),
      populateGo hashFn fuel seeds hm pts = some (.ok res) →
      hm.map Prod.fst = pts → pts.Nodup →
      res.2.length = pts.length + seeds.length ∧
      res.1.map Prod.fst = res.2 ∧
      res.2.Nodup ∧
      (∀ pr ∈ res.1, pr ∈ hm ∨ pr.2 ∈ seeds.map Prod.snd) := by
  intro seeds
  induction seeds with
  | nil =>
    intro hm pts res hres hfst hnd
    simp [populateGo] at hres
    subst hres
    simp [hfst, hnd]
  | cons seed rest ih =>
    intro hm pts res hres hfst hnd
    obtain ⟨key, owner⟩ := seed
    rw [populateGo] at hres
    split at hres
    · simp at hres
    · simp at hres
    · rename_i h hpoint
      have hfresh := findPoint_fresh hashFn hm key fuel "" h hpoint
      have hnotmem : h ∉ pts := by
        rw [alookup_eq_none, hfst] at hfresh
        exact hfresh
      have hfst' : (hm ++ [(h, owner)]).map Prod.fst = pts ++ [h] := by
        simp [hfst]
      have hnd' : (pts ++ [h]).Nodup := by
        simp [List.nodup_append, hnd, hnotmem]
      obtain ⟨hlen, hmapfst, hnodup, hmem⟩ := ih _ _ res hres hfst' hnd'
      refine ⟨?_, hmapfst, hnodup, ?_⟩
      · simp at hlen
        simp [hlen]
        omega
      · intro pr hpr
        rcases hmem pr hpr with hin | hsnd
        · rcases List.mem_append.mp hin with hl | hr
          · exact Or.inl hl
          · simp at hr
            right
            simp [hr]
        · right
          simp [hsnd]

lemma ringSeeds_length (ms : List String) (n : Nat) :
    (ringSeeds ms n).length = ms.length * n := by
  induction ms with
  | nil => simp [ringSeeds]
  | cons m tl ih =>
    simp [ringSeeds, List.flatMap_cons] at ih ⊢
    simp [ih]
    ring

lemma ringSeeds_snd_mem (ms : List String) (n : Nat) :
    ∀ p ∈ ringSeeds ms n, p.2 ∈ ms := by
  intro p hp
  simp [ringSeeds, List.mem_flatMap] at hp
  obtain ⟨m, hm, k, _, hpk⟩ := hp
  subst hpk
  simpa using hm

lemma pairwise_lt_of_sorted_nodup {l : List Int}
    (hs : List.Sorted (· ≤ ·) l) (hn : l.Nodup) : List.Pairwise (· < ·) l :=
  (hs.and hn).imp (fun h => lt_of_le_of_ne h.1 h.2)

lemma populate_spec (r : RingS) (fuel : Nat) (r' : RingS)
    (h : populate r fuel = some (.ok r')) :
    r'.points.length = r.members.length * r.virtualNodes ∧
    List.Pairwise (· < ·) r'.points ∧
    (∀ p ∈ r'.points, ∃ o, alookup r'.hashMap p = some o ∧ o ∈ r'.members) ∧
    r'.members = List.insertionSort strLe r.members ∧
    r'.hashFn = r.hashFn ∧ r'.virtualNodes = r.virtualNodes := by
  rw [populate] at h
  split at h
  · simp at h
  · simp at h
  · rename_i hm pts hgo
    simp only [Option.some.injEq, Except.ok.injEq] at h
    subst h
    obtain ⟨hlen, hfst, hnd, hmem⟩ :=
      populateGo_spec r.hashFn fuel _ [] [] (hm, pts) hgo rfl (by simp)
    simp only [List.length_nil, Nat.zero_add] at hlen
    have hperm := List.perm_insertionSort (· ≤ ·) pts
    refine ⟨?_, ?_, ?_, rfl, rfl, rfl⟩
    · simp only [hperm.length_eq, hlen, ringSeeds_length]
      simp [(List.perm_insertionSort strLe r.members).length_eq]
    · exact pairwise_lt_of_sorted_nodup (List.sorted_insertionSort _ _)
        (hperm.nodup_iff.mpr hnd)
    · intro p hp
      have hp' : p ∈ pts := hperm.mem_iff.mp hp
      have hpfst : p ∈ hm.map Prod.fst := by rw [hfst]; exact hp'
      obtain ⟨o, ho⟩ := alookup_isSome_of_mem_fst hpfst
      refine ⟨o, ho, ?_⟩
      rcases hmem (p, o) (alookup_mem ho) with hfalse | hsnd
      · simp at hfalse
      · obtain ⟨q, hq, hqo⟩ := List.mem_map.mp hsnd
        have := ringSeeds_snd_mem _ _ q hq
        rw [hqo] at this
        exact this

lemma insertionSort_perm_congr {l1 l2 : List String} (h : l1.Perm l2) :
    List.insertionSort strLe l1 = List.insertionSort strLe l2 :=
  List.eq_of_perm_of_sorted
    ((List.perm_insertionSort _ l1).trans (h.trans (List.perm_insertionSort _ l2).symm))
    (List.sorted_insertionSort _ _) (List.sorted_insertionSort _ _)

lemma ringNew_perm_congr (ms1 ms2 : List String) (n : Nat) (hf : HashFn) (fuel : Nat)
    (h : ms1.Perm ms2) : ringNew ms1 n hf fuel = ringNew ms2 n hf fuel := by
  unfold ringNew populate
  rw [insertionSort_perm_congr h]

/-- C4: claimed — |points| = |members| × N with strictly increasing unique
points mapping into the member set when |members| ≥ 2, ZERO points when
|members| = 1, and determinism.  The single-member part fails for
constructed rings: `New` runs `populate` for every member count, so a
single-member ring built by `New` has N points (only `SetMembers` with one
member clears them).  This theorem proves the rest, for every member count,
together with the `SetMembers`-to-one-member behavior. -/
theorem c4_ring_construction_invariants (ms : List String) (n : Nat) (hf : HashFn)
    (fuel : Nat) (r : RingS) (hnew : ringNew ms n hf fuel = some (.ok r)) :
    r.points.length = ms.length * n ∧
    List.Pairwise (· < ·) r.points ∧
    (∀ p ∈ r.points, ∃ o, alookup r.hashMap p = some o ∧ o ∈ r.members) ∧
    (∀ ms₂, ms₂.Perm ms → ringNew ms₂ n hf fuel = ringNew ms n hf fuel) ∧
    (∀ (r' : RingS) (m : String) (fuel' : Nat), setMembers r' [m] fuel' =
      some (.ok { r' with members := [m], points := [], hashMap := [] })) := by
  obtain ⟨hlen, hpw, hmem, _, _, _⟩ := populate_spec _ fuel r hnew
  refine ⟨by simpa using hlen, hpw, hmem, ?_, ?_⟩
  · intro ms₂ hperm
    exact ringNew_perm_congr ms₂ ms n hf fuel hperm
  · intro r' m fuel'
    simp [setMembers]

/-- C4 counterexample: a ring CONSTRUCTED (`New`) from a single member does
not have 0 points — `populate` builds `|members| × N` points regardless, so
`ringNew ["a"] 1 …` has 1 point, not 0. -/
theorem c4_single_member_new_builds_points :
    (ringNew ["a"] 1 (fun _ => .ok 0) 5).map (fun e => e.map (fun r => r.points.length)) =
      some (.ok 1) ∧ (1 : Nat) ≠ 0 :=
  ⟨rfl, by decide⟩

/-- C4 witness: the two-member ring built from ["b","a"] with one virtual
node per member and the length hash (seed "0b" collides with "0a" and is
re-hashed with a dash pfx) satisfies every proved invariant. -/
theorem c4_ring_construction_invariants_witness :
    ringNew ["b", "a"] 1 lenHash 5 = some (.ok c4Ring) ∧
    c4Ring.points.length = ["b", "a"].length * 1 ∧
    List.Pairwise (· < ·) c4Ring.points ∧
    (∀ p ∈ c4Ring.points, ∃ o, alookup c4Ring.hashMap p = some o ∧ o ∈ c4Ring.members) :=
  have h : ringNew ["b", "a"] 1 lenHash 5 = some (.ok c4Ring) := rfl
  ⟨h, (c4_ring_construction_invariants _ _ _ _ _ h).1,
    (c4_ring_construction_invariants _ _ _ _ _ h).2.1,
    (c4_ring_construction_invariants _ _ _ _ _ h).2.2.1⟩


/-- C1: claimed — on an LFU store the synchronously evicted key is one with
the smallest access count (ties by least recency), the frequency list stays
ascending, and the victim is the back entry of the front-most bucket.  The
code violates this: on `NewLFU(2)`, after `Put "a"; Put "b"; Get "a"`, the
key "a" has been accessed twice and "b" once, yet `Put "c"` evicts "a" —
because `unsafeUpdateCount` pushes the promoted count bucket to the FRONT of
the frequency list and its trailing `unsafeRemoveFreqEntry` call passes the
reassigned `entry.nodeKey`, so it never removes the stale element.  This
theorem evaluates the embedded code on that trace: "a" is gone while the
less-used "b" and the fresh "c" survive. -/
theorem c1_lfu_evicts_most_frequent_key :
    lfuBugTrace.map (fun s =>
      ((alookup s.hashMap "a").isNone, (alookup s.hashMap "b").isSome,
       (alookup s.hashMap "c").isSome)) = some (true, true, true) := by decide

/-- C2: claimed — on any storage variant, `evict k` then `get k` yields the
zero item with `hit = false`.  The code violates this for the LRU variant:
`(*LRU).Evict` unlinks the queue node and decrements `size` but never
deletes the `hashMap` entry, so a later `Get` still returns the stored value
with `hit = true`.  This theorem evaluates the embedded LocalStore over
LRU(2) on `put "k" "v"; evict "k"; get "k"`. -/
theorem c2_lru_get_after_evict_still_hits :
    lruC2Run = some (⟨none, "v"⟩, true) := by decide

/-- C3: claimed — with no getter, a present-but-expired entry makes `get`
return the zero item with `hit = false`.  Counterexample: at instant 10 the
entry `(expire 5, "v")` under "k" IS expired, yet `Store.Get` returns that
very item with `hit = true`, because the expiry test only guards the
cache-aside branch, which requires a getter. -/
theorem c3_expired_item_returned_with_hit :
    (Item.isExpired (⟨some 5, "v"⟩ : Item String) 10 = true) ∧
    (storeGet (mapStorage String String) 10 c3Store "k").map
      (fun r => (r.2.1, r.2.2.1)) = some (⟨some 5, "v"⟩, true) := by decide

/-- C3 amended: with no getter configured, `get` on the (default) map storage
returns the zero item with `hit = false` when the entry is missing; a
present entry — expired or not — is returned as stored with `hit = true`
(the expiry is never consulted on this path). -/
theorem c3_amended_no_getter_get {K V : Type} [DecidableEq K] [Inhabited V]
    (st : MapState K V) (k : K) (now : Int) :
    (alookup st k = none →
      storeGet (mapStorage K V) now ⟨none, st⟩ k =
        some (⟨none, st⟩, Item.zero V, false, none)) ∧
    (∀ i, alookup st k = some i →
      storeGet (mapStorage K V) now ⟨none, st⟩ k =
        some (⟨none, st⟩, i, true, none)) := by
  constructor
  · intro h
    simp [storeGet, mapStorage, mapGet, h]
  · intro i h
    simp [storeGet, mapStorage, mapGet, h]

/-- C3 amended, witness at concrete inputs: a missing key misses; the
expired-at-10 entry under "k" is returned with `hit = true`. -/
theorem c3_amended_no_getter_get_witness :
    (storeGet (mapStorage String String) 10
        ⟨none, [("k", ⟨some 5, "v"⟩)]⟩ "j" =
      some (⟨none, [("k", ⟨some 5, "v"⟩)]⟩, Item.zero String, false, none)) ∧
    (storeGet (mapStorage String String) 10
        ⟨none, [("k", ⟨some 5, "v"⟩)]⟩ "k" =
      some (⟨none, [("k", ⟨some 5, "v"⟩)]⟩, ⟨some 5, "v"⟩, true, none)) :=
  ⟨(c3_amended_no_getter_get _ _ _).1 (by decide),
   (c3_amended_no_getter_get _ _ _).2 _ (by decide)⟩

/-- C5: claimed — the default hash is FNV-1a 64-bit of an MD5-digested seed.
Counterexample at the seed "0a": `DefaultHashFunc` returns the plain FNV-1
value 590701660006484860, which differs from FNV-1a over the raw MD5 digest,
over the hex MD5 digest, and from plain FNV-1a of the seed. -/
theorem c5_default_hash_not_fnv1a_of_md5 :
    defaultHashFunc "0a" = .ok (590701660006484860 : Int) ∧
    specHashMD5Bytes "0a" ≠ (590701660006484860 : Int) ∧
    specHashMD5Hex "0a" ≠ (590701660006484860 : Int) ∧
    specHashFnv1a "0a" ≠ (590701660006484860 : Int) := by
  refine ⟨rfl, ?_, ?_, ?_⟩ <;> decide

/-- C5 amended: the ring's default hash function is 64-bit FNV-1
(`fnv.New64()`), applied directly to the seed string with no MD5 stage, and
`NewCache` installs exactly this function as the default `hashFunc`. -/
theorem c5_amended_default_hash_is_fnv1 :
    newCacheDefaults.hashFunc = defaultHashFunc ∧
    ∀ key, defaultHashFunc key = .ok (toInt64 (fnv1_64 (strBytes key))) :=
  ⟨rfl, fun _ => rfl⟩

/-- C7: claimed — if the mutator errors, `update` returns the error and the
store is unchanged, including when a getter is configured and the key was
absent.  Counterexample: key "k" absent, getter loads "e", mutator fails —
`update` returns the error but the loaded item for "k" REMAINS stored. -/
theorem c7_failed_update_keeps_cache_aside_fill :
    alookup ([] : MapState String String) "k" = none ∧
    c7Run.map (fun r => (r.1.internal,
      match r.2 with | .error e => some e | .ok _ => none)) =
      some ([("k", ⟨none, "e"⟩)], some "boom") := ⟨rfl, rfl⟩

/-- C7 amended: when the mutator errors, `update` returns that error and the
mutator's result is not stored; the store is unchanged — except that when a
getter is configured and the key was absent, the item loaded by the getter
(stored by the cache-aside fill before the mutator ran) remains. -/
theorem c7_amended_failed_update {K V : Type} [DecidableEq K] [Inhabited V]
    (st : MapState K V) (k : K) (now : Int) (fn : V → Except String (V × Int))
    (e : String) :
    (∀ i g, alookup st k = some i → fn i.value = .error e →
      storeUpdate (mapStorage K V) now ⟨g, st⟩ k fn = some (⟨g, st⟩, .error e)) ∧
    (∀ g l ttl, alookup st k = none → g k = .ok (l, ttl) → fn l = .error e →
      storeUpdate (mapStorage K V) now ⟨some g, st⟩ k fn =
        some (⟨some g, aupsert st k (mkItem l ttl now)⟩, .error e)) ∧
    (alookup st k = none → fn (default : V) = .error e →
      storeUpdate (mapStorage K V) now ⟨none, st⟩ k fn =
        some (⟨none, st⟩, .error e)) := by
  refine ⟨?_, ?_, ?_⟩
  · intro i g hl hf
    cases g <;>
      simp [storeUpdate, mapStorage, mapGet, hl, storeUpdateRest, hf]
  · intro g l ttl hl hg hf
    simp [storeUpdate, mapStorage, mapGet, hl, storeCacheAside, hg, mapPut,
      storeUpdateRest, mkItem, hf]
  · intro hl hf
    simp [storeUpdate, mapStorage, mapGet, hl, storeUpdateRest, Item.zero, hf]

/-- C7 amended, witness at concrete inputs covering all three cases. -/
theorem c7_amended_failed_update_witness :
    (storeUpdate (mapStorage String String) 0
        ⟨none, [("k", ⟨none, "x"⟩)]⟩ "k" (fun _ => .error "boom") =
      some (⟨none, [("k", ⟨none, "x"⟩)]⟩, .error "boom")) ∧
    (storeUpdate (mapStorage String String) 0
        ⟨some c7Getter, []⟩ "k" (fun _ => .error "boom") =
      some (⟨some c7Getter, [("k", ⟨none, "e"⟩)]⟩, .error "boom")) ∧
    (storeUpdate (mapStorage String String) 0
        (⟨none, []⟩ : StoreState String String (MapState String String)) "k"
        (fun _ => .error "boom") =
      some (⟨none, []⟩, .error "boom")) :=
  ⟨(c7_amended_failed_update [("k", ⟨none, "x"⟩)] "k" 0 _ "boom").1
      ⟨none, "x"⟩ none (by decide) rfl,
   by
    have h := (c7_amended_failed_update ([] : MapState String String) "k" 0
      (fun _ => .error "boom") "boom").2.1 c7Getter "e" 0 (by decide) rfl rfl
    simpa [mkItem] using h,
   (c7_amended_failed_update ([] : MapState String String) "k" 0 _ "boom").2.2
      (by decide) rfl⟩

lemma searchLoop_spec (f : Nat → Bool) (n : Nat)
    (hmono : ∀ a b, a ≤ b → b < n → f a = true → f b = true) :
    ∀ (fuel i j : Nat), j - i ≤ fuel → i ≤ j → j ≤ n →
      (∀ k, k < i → f k = false) → (∀ k, j ≤ k → k < n → f k = true) →
      (∀ k, k < searchLoop f fuel i j → f k = false) ∧
      (∀ k, searchLoop f fuel i j ≤ k → k < n → f k = true) ∧
      i ≤ searchLoop f fuel i j ∧ searchLoop f fuel i j ≤ j := by
  intro fuel
  induction fuel with
  | zero =>
    intro i j hfuel hij hjn hlow hhigh
    have hieq : i = j := by omega
    subst hieq
    exact ⟨hlow, fun k hk => hhigh k hk, le_refl _, le_refl _⟩
  | succ fl ih =>
    intro i j hfuel hij hjn hlow hhigh
    rw [searchLoop]
    by_cases hlt : i < j
    · simp only [if_pos hlt]
      have hmlo : i ≤ (i + j) / 2 := by omega
      have hmhi : (i + j) / 2 < j := by omega
      by_cases hfm : f ((i + j) / 2) = true
      · simp only [hfm, if_true]
        obtain ⟨ha, hb, hc, hd⟩ := ih i ((i + j) / 2) (by omega) hmlo (by omega) hlow
          (fun k hk hkn => hmono _ _ hk hkn hfm)
        exact ⟨ha, hb, hc, by omega⟩
      · simp only [hfm, Bool.false_eq_true, if_false]
        have hlow' : ∀ k, k < (i + j) / 2 + 1 → f k = false := by
          intro k hk
          by_cases hki : k < i
          · exact hlow k hki
          · cases hfk : f k
            · rfl
            · have : f ((i + j) / 2) = true :=
                hmono k _ (by omega) (by omega) hfk
              rw [this] at hfm
              exact absurd rfl hfm
        obtain ⟨ha, hb, hc, hd⟩ := ih ((i + j) / 2 + 1) j (by omega) (by omega) hjn hlow' hhigh
        exact ⟨ha, hb, by omega, hd⟩
    · simp only [if_neg hlt]
      have hieq : i = j := by omega
      subst hieq
      exact ⟨hlow, fun k hk => hhigh k hk, le_refl _, le_refl _⟩

lemma sortSearch_spec (f : Nat → Bool) (n : Nat)
    (hmono : ∀ a b, a ≤ b → b < n → f a = true → f b = true) :
    (∀ k, k < sortSearch n f → f k = false) ∧
    (∀ k, sortSearch n f ≤ k → k < n → f k = true) ∧
    sortSearch n f ≤ n := by
  obtain ⟨h1, h2, _, h4⟩ := searchLoop_spec f n hmono n 0 n (by omega) (by omega)
    (le_refl _) (by omega) (by omega)
  exact ⟨h1, h2, h4⟩

lemma find?_first_true {α : Type} (p : α → Bool) :
    ∀ (l : List α) (r : Nat) (hr : r < l.length),
      (∀ k, (hk : k < r) → p (l.get ⟨k, by omega⟩) = false) →
      p (l.get ⟨r, hr⟩) = true →
      l.find? p = some (l.get ⟨r, hr⟩) := by
  intro l
  induction l with
  | nil => intro r hr; simp at hr
  | cons a tl ih =>
    intro r hr hfirst hp
    cases r with
    | zero =>
      simp at hp
      simp [List.find?, hp]
    | succ r' =>
      have ha : p a = false := hfirst 0 (by omega)
      simp [List.find?, ha]
      have := ih r' (by simpa using hr) (fun k hk => hfirst (k + 1) (by omega)) (by simpa using hp)
      simpa using this

lemma getD_eq_get {l : List Int} {i : Nat} (h : i < l.length) (d : Int) :
    l.getD i d = l.get ⟨i, h⟩ := by
  simp [List.getD_eq_getElem?_getD, List.getElem?_eq_getElem h]

/-- C6 core: for a multi-member ring with ascending points, `GetOwner`
returns the member of the first point ≥ the key's hash, wrapping to the
front point. -/
lemma getOwner_firstGE (r : RingS) (key : String) (sum : Int)
    (hlen : r.members.length ≠ 1) (hsort : List.Pairwise (· ≤ ·) r.points)
    (hne : r.points ≠ []) (hhash : r.hashFn key = .ok sum) :
    getOwner r key = some (.ok (alookupD r.hashMap (firstGEPoint r.points sum) "")) := by
  have hnlen : 0 < r.points.length := List.length_pos.mpr hne
  have hmono : ∀ a b, a ≤ b → b < r.points.length →
      (decide (sum ≤ r.points.getD a 0)) = true →
      (decide (sum ≤ r.points.getD b 0)) = true := by
    intro a b hab hbn ha
    have han : a < r.points.length := by omega
    rw [getD_eq_get han] at ha
    rw [getD_eq_get hbn]
    simp only [decide_eq_true_eq] at ha ⊢
    rcases Nat.lt_or_ge a b with hlt | hge
    · have := (List.pairwise_iff_get.mp hsort) ⟨a, han⟩ ⟨b, hbn⟩ hlt
      omega
    · have haeq : a = b := by omega
      subst haeq
      exact ha
  obtain ⟨hfalse, htrue, hle⟩ :=
    sortSearch_spec (fun j => decide (sum ≤ r.points.getD j 0)) r.points.length hmono
  rw [getOwner, if_neg hlen, hhash]
  rcases Nat.lt_or_ge (sortSearch r.points.length (fun j => decide (sum ≤ r.points.getD j 0)))
      r.points.length with hr | hr
  · have hfind : r.points.find? (fun p => decide (sum ≤ p)) =
        some (r.points.get ⟨_, hr⟩) := by
      apply find?_first_true
      · intro k hk
        have hkn : k < r.points.length := by omega
        have hf := hfalse k hk
        rw [getD_eq_get hkn] at hf
        exact hf
      · have hf := htrue _ (le_refl _) hr
        rw [getD_eq_get hr] at hf
        exact hf
    have hne' : ¬ (sortSearch r.points.length (fun j => decide (sum ≤ r.points.getD j 0)) =
        r.points.length) := by omega
    simp only [hne', if_false, List.getElem?_eq_getElem hr, firstGEPoint, hfind, alookupD]
    rcases alookup r.hashMap (r.points.get ⟨_, hr⟩) with _ | m <;> simp [List.get_eq_getElem]
  · have hreq : sortSearch r.points.length (fun j => decide (sum ≤ r.points.getD j 0)) =
        r.points.length := by omega
    have hfind : r.points.find? (fun p => decide (sum ≤ p)) = none := by
      rw [List.find?_eq_none]
      intro x hx
      obtain ⟨k, hkx⟩ := List.mem_iff_get.mp hx
      have hf := hfalse k.val (by omega)
      rw [getD_eq_get k.isLt] at hf
      rw [← hkx]
      simpa using hf
    have hhead : r.points[0]? = some (r.points.headD 0) := by
      cases hps : r.points with
      | nil => exact absurd hps hne
      | cons p tl => simp
    simp only [hreq, eq_self_iff_true, if_true, firstGEPoint, hfind, alookupD]
    rw [hhead]
    rcases halk : alookup r.hashMap (r.points.head?.getD 0) with _ | m <;>
      simp [halk, List.headD_eq_head?]

/-- C6: a single-member ring answers with that member, consulting neither the
hash function nor the point table; a multi-member ring with ascending points
answers with the member of the first point ≥ hash(key), wrapping to the
front; and rings built from permuted member lists dispatch identically. -/
theorem c6_get_owner_dispatch :
    (∀ (r : RingS) (key m : String), r.members = [m] →
      getOwner r key = some (.ok m)) ∧
    (∀ (r : RingS) (key : String) (sum : Int), r.members.length ≠ 1 →
      List.Pairwise (· ≤ ·) r.points → r.points ≠ [] → r.hashFn key = .ok sum →
      getOwner r key = some (.ok (alookupD r.hashMap (firstGEPoint r.points sum) ""))) ∧
    (∀ (ms₁ ms₂ : List String) (n : Nat) (hf : HashFn) (fuel : Nat) (key : String),
      ms₁.Perm ms₂ →
      (ringNew ms₁ n hf fuel).map (fun e => e.map (fun r => getOwner r key)) =
      (ringNew ms₂ n hf fuel).map (fun e => e.map (fun r => getOwner r key))) := by
  refine ⟨?_, ?_, ?_⟩
  · intro r key m hm
    simp [getOwner, hm]
  · exact fun r key sum h1 h2 h3 h4 => getOwner_firstGE r key sum h1 h2 h3 h4
  · intro ms₁ ms₂ n hf fuel key hperm
    rw [ringNew_perm_congr ms₁ ms₂ n hf fuel hperm]

/-- C6 witness: the stale-points single-member ring answers "solo"; on the
concrete two-member ring the key "xx" (hash 2) is owned by the member at
point 5, namely "b". -/
theorem c6_get_owner_dispatch_witness :
    getOwner c6RingSolo "anything" = some (.ok "solo") ∧
    getOwner c6Ring "xx" = some (.ok "b") := by
  refine ⟨c6_get_owner_dispatch.1 c6RingSolo "anything" "solo" rfl, ?_⟩
  have h := c6_get_owner_dispatch.2.1 c6Ring "xx" 2 (by decide) (by decide)
    (by decide) rfl
  rw [h]
  rfl

/-- C8: metrics are accounted only on the owner node: the local get path
increments the table's and the cache's `get` exactly once and `miss` exactly
when the storage missed, touching no other counter; the remote
get/put/evict/call paths touch no counter at all. -/
theorem c8_metrics_owner_only {σ σh : Type}
    (impl : StorageImpl String String σ) (implh : StorageImpl String String σh)
    (now : Int) (t : TableS σ σh) (cm : MetricsS) (key b : String) (ttl : Int)
    (respG : Except String PeerGetRes) (respU : Except String Unit)
    (respC : Except String (String × Int)) :
    (∀ t' cm' itm hit err,
      getLocally impl now t cm key = some ((t', cm'), itm, hit, err) →
      t'.metrics.get = t.metrics.get + 1 ∧ cm'.get = cm.get + 1 ∧
      t'.metrics.miss = t.metrics.miss + (if hit then 0 else 1) ∧
      cm'.miss = cm.miss + (if hit then 0 else 1) ∧
      t'.metrics.put = t.metrics.put ∧ cm'.put = cm.put ∧
      t'.metrics.evict = t.metrics.evict ∧ cm'.evict = cm.evict ∧
      t'.metrics.call = t.metrics.call ∧ cm'.call = cm.call) ∧
    (∀ out, getFromPeer implh t cm key respG = some out →
      out.1.1.metrics = t.metrics ∧ out.1.2 = cm) ∧
    (∀ out, putFromPeer implh now t cm key b ttl respU = some out →
      out.1.1.metrics = t.metrics ∧ out.1.2 = cm) ∧
    (∀ out, evictFromPeer implh t cm key respU = some out →
      out.1.1.metrics = t.metrics ∧ out.1.2 = cm) ∧
    (∀ out, callFromPeer implh t cm key respC = some out →
      out.1.1.metrics = t.metrics ∧ out.1.2 = cm) := by
  refine ⟨?_, ?_, ?_, ?_, ?_⟩
  · intro t' cm' itm hit err h
    rw [getLocally] at h
    cases hsg : storeGet impl now ({ t with metrics := incGet t.metrics } :
        TableS σ σh).store key with
    | none => rw [hsg] at h; simp at h
    | some res =>
      obtain ⟨s', itm₀, hit₀, err₀⟩ := res
      rw [hsg] at h
      by_cases hh : hit₀ = true
      · subst hh
        simp only [if_true, Option.some.injEq, Prod.mk.injEq] at h
        obtain ⟨⟨ht, hcm⟩, _, hhit, _⟩ := h
        subst ht; subst hcm; subst hhit
        simp [incGet]
      · have hh' : hit₀ = false := by
          cases hit₀
          · rfl
          · exact absurd rfl hh
        subst hh'
        simp only [Bool.false_eq_true, if_false, Option.some.injEq,
          Prod.mk.injEq] at h
        obtain ⟨⟨ht, hcm⟩, _, hhit, _⟩ := h
        subst ht; subst hcm; subst hhit
        simp [incGet, incMiss]
  · intro out h
    rw [getFromPeer.eq_def] at h
    rcases respG with e | r
    · simp at h
      rw [← h]
      exact ⟨rfl, rfl⟩
    · cases hhot : t.hotStore with
      | none => simp [hhot] at h; rw [← h]; exact ⟨rfl, rfl⟩
      | some hs =>
        simp only [hhot] at h
        cases hput : storePut implh hs key ⟨some r.expireMicros, r.value⟩ with
        | none => rw [hput] at h; simp at h
        | some hs' =>
          rw [hput] at h
          simp at h
          rw [← h]
          exact ⟨rfl, rfl⟩
  · intro out h
    rw [putFromPeer.eq_def] at h
    rcases respU with e | u
    · simp at h
      rw [← h]
      exact ⟨rfl, rfl⟩
    · cases hhot : t.hotStore with
      | none => simp [hhot] at h; rw [← h]; exact ⟨rfl, rfl⟩
      | some hs =>
        simp only [hhot] at h
        cases hput : storePut implh hs key (mkItem b ttl now) with
        | none => rw [hput] at h; simp at h
        | some hs' =>
          rw [hput] at h
          simp at h
          rw [← h]
          exact ⟨rfl, rfl⟩
  · intro out h
    rw [evictFromPeer.eq_def] at h
    rcases respU with e | u
    · simp at h
      rw [← h]
      exact ⟨rfl, rfl⟩
    · cases hhot : t.hotStore with
      | none => simp [hhot] at h; rw [← h]; exact ⟨rfl, rfl⟩
      | some hs =>
        simp only [hhot] at h
        cases hev : storeEvict implh hs key with
        | none => rw [hev] at h; simp at h
        | some hs' =>
          rw [hev] at h
          simp at h
          rw [← h]
          exact ⟨rfl, rfl⟩
  · intro out h
    rw [callFromPeer.eq_def] at h
    rcases respC with e | r
    · simp at h
      rw [← h]
      exact ⟨rfl, rfl⟩
    · obtain ⟨v, exp⟩ := r
      cases hhot : t.hotStore with
      | none => simp [hhot] at h; rw [← h]; exact ⟨rfl, rfl⟩
      | some hs =>
        simp only [hhot] at h
        cases hput : storePut implh hs key ⟨some exp, v⟩ with
        | none => rw [hput] at h; simp at h
        | some hs' =>
          rw [hput] at h
          simp at h
          rw [← h]
          exact ⟨rfl, rfl⟩

/-- C8 witness: on a concrete empty-map table, the local get path yields
exactly one `get` increment on both metrics and one `miss` (the read
missed), while a remote get (miss response, no hot store) leaves both
metrics untouched. -/
theorem c8_metrics_owner_only_witness :
    (getLocally (mapStorage String String) 0 c8Table MetricsS.zero "k" =
      some ((c8TableAfter, ⟨1, 1, 0, 0, []⟩), Item.zero String, false, none)) ∧
    c8TableAfter.metrics.get = c8Table.metrics.get + 1 ∧
    c8TableAfter.metrics.miss = c8Table.metrics.miss + 1 ∧
    c8TableAfter.metrics.put = c8Table.metrics.put ∧
    (getFromPeer (mapStorage String String) c8Table MetricsS.zero "k"
        (.ok ⟨"", 0, false⟩) =
      some ((c8Table, MetricsS.zero), .ok (⟨some 0, ""⟩, false))) ∧
    c8Table.metrics = c8Table.metrics := by
  have hmain := c8_metrics_owner_only (mapStorage String String)
    (mapStorage String String) 0 c8Table MetricsS.zero "k" "" 0
    (.ok ⟨"", 0, false⟩) (.ok ()) (.ok ("", 0))
  have hl : getLocally (mapStorage String String) 0 c8Table MetricsS.zero "k" =
      some ((c8TableAfter, ⟨1, 1, 0, 0, []⟩), Item.zero String, false, none) := rfl
  have hr : getFromPeer (mapStorage String String) c8Table MetricsS.zero "k"
      (.ok ⟨"", 0, false⟩) =
      some ((c8Table, MetricsS.zero), .ok (⟨some 0, ""⟩, false)) := rfl
  obtain ⟨hget, _, hmiss, _, hput, _⟩ := hmain.1 _ _ _ _ _ hl
  exact ⟨hl, hget, by simpa using hmiss, hput, hr, (hmain.2.1 _ hr).1⟩

lemma alookup_map_detach {σ σh : Type} (l : List (String × TableObj σ σh)) (name : String) :
    alookup (l.map (fun p => (p.1, { p.2 with attached := false }))) name =
    (alookup l name).map (fun o => { o with attached := false }) := by
  induction l with
  | nil => rfl
  | cons p tl ih =>
    obtain ⟨k, o⟩ := p
    by_cases h : k = name <;> simp [alookup, h, ih]

lemma sysWithTable_detached {σ σh α : Type} (s' : Sys σ σh) (name : String)
    (op : TableS σ σh → MetricsS → Option ((TableS σ σh × MetricsS) × Except TblErr α))
    (hz : tableIsZero s' name = true) :
    sysWithTable s' name op = some (s', .error .cacheDestroyed) := by
  rw [sysWithTable]
  unfold tableIsZero at hz
  cases hlk : alookup s'.heap name with
  | none => rfl
  | some o =>
    rw [hlk] at hz
    simp at hz
    simp [hz]

/-- C9: after `TearDown` succeeds, every public operation on the cache and on
every table registered in it (which is every table the builder ever built)
returns `ErrCacheDestroyed`: the cache is zeroed and each table's cache
pointer is nil, and every public entry point guards on `isZero`. -/
theorem c9_teardown_poisons_cache_and_tables {σ σh : Type}
    (impl : StorageImpl String String σ) (implh : StorageImpl String String σh)
    (now : Int) (ctx : NodeCtx) (s s' : Sys σ σh)
    (h : sysTearDown s = .ok s') :
    sysTearDown s' = .error .cacheDestroyed ∧
    cacheGetMetrics s' = .error .cacheDestroyed ∧
    (∀ body peers, cacheSetPeers body s' peers = .error .cacheDestroyed) ∧
    (∀ body, cacheListenAndServe body s' = .error .cacheDestroyed) ∧
    (∀ body, cacheHealthCheckPeers body s' = .error .cacheDestroyed) ∧
    (∀ name key resp, sysTableGet impl implh now ctx s' name key resp =
      some (s', .error .cacheDestroyed)) ∧
    (∀ name key v ttl resp, sysTablePut impl implh now ctx s' name key v ttl resp =
      some (s', .error .cacheDestroyed)) ∧
    (∀ name key resp, sysTableEvict impl implh ctx s' name key resp =
      some (s', .error .cacheDestroyed)) ∧
    (∀ name keys, sysTableEvictAll impl ctx s' name keys =
      some (s', .error .cacheDestroyed)) ∧
    (∀ name key p args resp, sysTableCall impl implh now ctx s' name key p args resp =
      some (s', .error .cacheDestroyed)) ∧
    (∀ name key, sysTableGetHot impl implh now ctx s' name key =
      some (s', .error .cacheDestroyed)) ∧
    (∀ name, sysTableGetMetrics s' name = some (s', .error .cacheDestroyed)) := by
  rw [sysTearDown] at h
  by_cases hz : cacheIsZero s = true
  · rw [if_pos hz] at h
    exact absurd h (by simp)
  · rw [if_neg hz] at h
    simp only [Except.ok.injEq] at h
    subst h
    have hzero : cacheIsZero (detachAll s) = true := by
      simp [cacheIsZero, detachAll]
    have htz : ∀ name, tableIsZero (detachAll s) name = true := by
      intro name
      unfold tableIsZero detachAll
      simp only [alookup_map_detach]
      cases alookup s.heap name <;> simp
    refine ⟨?_, ?_, ?_, ?_, ?_, ?_, ?_, ?_, ?_, ?_, ?_, ?_⟩
    · rw [sysTearDown, if_pos hzero]
    · rw [cacheGetMetrics, if_pos hzero]
    · intro body peers
      rw [cacheSetPeers, if_pos hzero]
    · intro body
      rw [cacheListenAndServe, if_pos hzero]
    · intro body
      rw [cacheHealthCheckPeers, if_pos hzero]
    · intro name key resp
      exact sysWithTable_detached _ name _ (htz name)
    · intro name key v ttl resp
      exact sysWithTable_detached _ name _ (htz name)
    · intro name key resp
      exact sysWithTable_detached _ name _ (htz name)
    · intro name keys
      exact sysWithTable_detached _ name _ (htz name)
    · intro name key p args resp
      exact sysWithTable_detached _ name _ (htz name)
    · intro name key
      exact sysWithTable_detached _ name _ (htz name)
    · intro name
      exact sysWithTable_detached _ name _ (htz name)

/-- C9 witness: build one concrete table, tear the cache down, and observe
`ErrCacheDestroyed` from a second TearDown, from the cache metrics call, and
from table Get / GetMetrics through the destroyed handles. -/
theorem c9_teardown_poisons_witness :
    sysTearDown c9Sys = .ok (detachAll c9Sys) ∧
    sysTearDown (detachAll c9Sys) = .error .cacheDestroyed ∧
    cacheGetMetrics (detachAll c9Sys) = .error .cacheDestroyed ∧
    sysTableGet (mapStorage String String) (mapStorage String String) 0
      ⟨"solo", c6RingSolo⟩ (detachAll c9Sys) "t" "k" (.ok ⟨"", 0, false⟩) =
      some (detachAll c9Sys, .error .cacheDestroyed) ∧
    sysTableGetMetrics (detachAll c9Sys) "t" =
      some (detachAll c9Sys, .error .cacheDestroyed) :=
  have h : sysTearDown c9Sys = .ok (detachAll c9Sys) := rfl
  have hm := c9_teardown_poisons_cache_and_tables (mapStorage String String)
    (mapStorage String String) 0 ⟨"solo", c6RingSolo⟩ c9Sys (detachAll c9Sys) h
  ⟨h, hm.1, hm.2.1, hm.2.2.2.2.2.1 "t" "k" _,
    hm.2.2.2.2.2.2.2.2.2.2.2 "t"⟩

lemma alookup_aupsert_self {K V : Type} [DecidableEq K] (l : List (K × V)) (k : K) (v : V) :
    alookup (aupsert l k v) k = some v := by
  induction l with
  | nil => simp [aupsert, alookup]
  | cons p tl ih =>
    obtain ⟨a, b⟩ := p
    by_cases h : a = k <;> simp [aupsert, alookup, h, ih]

/-- C10: a remote Get whose response reports `hit = false` still inserts the
response's item (empty value, expiry `time.UnixMicro(0)`-style instant) into
the hot store under the request key, and a later GetHot on that non-owner
node finds it (`hit = true` from the raw map read) and returns the decoded
value with no error instead of `ErrKeyNotFound`. -/
theorem c10_remote_miss_fills_hot_cache {σ : Type}
    (impl : StorageImpl String String σ) (now exp : Int) (ctx : NodeCtx)
    (t : TableS σ (MapState String String)) (cm : MetricsS)
    (key val owner : String) (hsInternal : MapState String String)
    (hhs : t.hotStore = some ⟨none, hsInternal⟩)
    (howner : getOwner ctx.ring key = some (.ok owner))
    (hremote : owner ≠ ctx.selfID) :
    getFromPeer (mapStorage String String) t cm key (.ok ⟨val, exp, false⟩) =
      some (({ t with hotStore := some ⟨none, aupsert hsInternal key ⟨some exp, val⟩⟩ }, cm),
        .ok (⟨some exp, val⟩, false)) ∧
    getHot impl (mapStorage String String) now ctx
        { t with hotStore := some ⟨none, aupsert hsInternal key ⟨some exp, val⟩⟩ } key =
      some ({ t with hotStore := some ⟨none, aupsert hsInternal key ⟨some exp, val⟩⟩ },
        .ok val) := by
  constructor
  · rw [getFromPeer.eq_def]
    simp only [hhs]
    rfl
  · rw [getHot.eq_def]
    simp only [howner]
    rw [if_neg hremote]
    rw [getFromHotCache.eq_def]
    simp only [storeGet, mapStorage, mapGet, alookup_aupsert_self]
    simp

/-- C10 witness: on the two-member ring, node "a" fetches key "xx" (owned by
"b") remotely, the response is a miss carrying the zero item; the hot store
receives it and GetHot then returns the empty string with no error. -/
theorem c10_remote_miss_fills_hot_cache_witness :
    getFromPeer (mapStorage String String) c10Table MetricsS.zero "xx"
        (.ok ⟨"", 0, false⟩) =
      some ((c10TableAfter, MetricsS.zero), .ok (⟨some 0, ""⟩, false)) ∧
    getHot (mapStorage String String) (mapStorage String String) 0 c10Ctx
        c10TableAfter "xx" = some (c10TableAfter, .ok "") :=
  c10_remote_miss_fills_hot_cache (mapStorage String String) 0 0 c10Ctx
    c10Table MetricsS.zero "xx" "" "b" [] rfl rfl (by decide)

end Nitecache
